import Mathlib

/-!
# Verification of the NASDAQ order-book simulator and trading engine

This file is a shallow embedding, in Lean 4, of the parts of the repository
that the verified properties talk about:

* `src/order_book_simulator/order_book.py` — the `OrderBook` class: the order
  registry (`self.orders`), the per-symbol two-sided price-level books
  (`self.books`), the cached best prices (`self.best_prices`), the set of seen
  stocks and the message counters, together with the five ITCH message
  handlers dispatched by `OrderBook.process_message`.
* `src/trading_engine/trading_engine.py` — the `TradingEngine` class:
  `place_order`, `cancel_order`, `execute_order`,
  `liquidity_reversion_strategy`, `process_market_update` and
  `calculate_performance_metrics`.

Modelling conventions:

* Python dicts become association lists (`List (κ × ν)`) with dict semantics:
  `alistLookup` returns the first binding, `alistSet` overwrites in place or
  appends a fresh binding at the end (Python dicts keep insertion order), and
  `alistErase` removes the binding.  The dicts built by the code never hold
  duplicate keys, so first-binding lookup agrees with dict lookup.
* The two defaultdicts `self.books` and `self.best_prices` are modelled as
  total functions `String → _` whose value at an untouched key is the default
  (`{"bids": {}, "asks": {}}` resp. `{"bid": None, "ask": None}`); a
  defaultdict read of a missing key returns exactly that default.
* Python floats carrying prices and money become `ℚ`; the code only ever
  adds, subtracts, divides and compares them, so exact arithmetic is faithful
  on all the inputs appearing below.  Shares and counters are `Int`.
* Python truthiness in `if not all([reference, side, shares, stock, price])`
  is modelled literally: an `Int` is truthy iff nonzero, a `String` iff
  nonempty, a float iff nonzero.
* `self.price_history` and `self.snapshot_cache` of `OrderBook` are
  write-only with respect to every modelled observable (they are read only by
  the reporting/export helpers), so they are omitted from the state.
* Wall-clock fields (`time.time()` timestamps, durations) are omitted.
-/

namespace NasdaqSim

/-! ## Association lists with Python-dict semantics -/

variable {κ : Type} {ν : Type} [DecidableEq κ]

/-- First-binding lookup, the value of `d[k]` / `d.get(k)`. -/
def alistLookup (k : κ) : List (κ × ν) → Option ν
  | [] => none
  | e :: rest => if e.1 = k then some e.2 else alistLookup k rest

/-- `d[k] = v`: overwrite the binding in place, or append a fresh one
(Python dicts keep insertion order; a fresh key goes to the end). -/
def alistSet (k : κ) (v : ν) : List (κ × ν) → List (κ × ν)
  | [] => [(k, v)]
  | e :: rest => if e.1 = k then (k, v) :: rest else e :: alistSet k v rest

/-- `del d[k]`: drop the binding. -/
def alistErase (k : κ) (l : List (κ × ν)) : List (κ × ν) :=
  l.filter (fun e => e.1 ≠ k)

def alistKeys (l : List (κ × ν)) : List κ := l.map Prod.fst

@[simp] theorem alistLookup_nil (k : κ) : alistLookup k ([] : List (κ × ν)) = none := rfl

@[simp] theorem alistLookup_cons (k : κ) (e : κ × ν) (l : List (κ × ν)) :
    alistLookup k (e :: l) = if e.1 = k then some e.2 else alistLookup k l := rfl

theorem alistLookup_set_self (k : κ) (v : ν) (l : List (κ × ν)) :
    alistLookup k (alistSet k v l) = some v := by
  induction l with
  | nil => simp [alistSet]
  | cons e rest ih =>
    by_cases h : e.1 = k <;> simp [alistSet, h, ih]

theorem alistLookup_set_ne (k k' : κ) (v : ν) (l : List (κ × ν)) (h : k' ≠ k) :
    alistLookup k' (alistSet k v l) = alistLookup k' l := by
  induction l with
  | nil => simp [alistSet, Ne.symm h]
  | cons e rest ih =>
    by_cases he : e.1 = k
    · subst he
      simp [alistSet, Ne.symm h, ih]
    · simp only [alistSet, if_neg he, alistLookup_cons, ih]

@[simp] theorem alistErase_nil (k : κ) : alistErase k ([] : List (κ × ν)) = [] := rfl

theorem alistErase_cons (k : κ) (e : κ × ν) (l : List (κ × ν)) :
    alistErase k (e :: l) = if e.1 = k then alistErase k l else e :: alistErase k l := by
  by_cases h : e.1 = k <;> simp [alistErase, h]

theorem alistLookup_erase_self (k : κ) (l : List (κ × ν)) :
    alistLookup k (alistErase k l) = none := by
  induction l with
  | nil => rfl
  | cons e rest ih =>
    rw [alistErase_cons]
    by_cases h : e.1 = k <;> simp [h, ih]

theorem alistLookup_erase_ne (k k' : κ) (l : List (κ × ν)) (h : k' ≠ k) :
    alistLookup k' (alistErase k l) = alistLookup k' l := by
  induction l with
  | nil => rfl
  | cons e rest ih =>
    rw [alistErase_cons]
    by_cases he : e.1 = k
    · subst he
      simp [Ne.symm h, ih]
    · simp [he, ih]

/-- With a fresh key, `alistSet` is an append at the end. -/
theorem alistSet_fresh (k : κ) (v : ν) (l : List (κ × ν))
    (h : alistLookup k l = none) : alistSet k v l = l ++ [(k, v)] := by
  induction l with
  | nil => rfl
  | cons e rest ih =>
    simp only [alistLookup_cons] at h
    by_cases he : e.1 = k
    · simp [he] at h
    · simp only [alistSet, if_neg he, List.cons_append, List.cons.injEq, true_and]
      exact ih (by simpa [he] using h)

/-- Rewriting the binding that already holds the looked-up value is a no-op. -/
theorem alistSet_lookup_self (k : κ) (v : ν) (l : List (κ × ν))
    (h : alistLookup k l = some v) : alistSet k v l = l := by
  induction l with
  | nil => simp at h
  | cons e rest ih =>
    simp only [alistLookup_cons] at h
    by_cases he : e.1 = k
    · simp only [he, if_pos rfl] at h
      cases e
      simp_all [alistSet]
    · simp only [alistSet, if_neg he, List.cons.injEq, true_and]
      exact ih (by simpa [he] using h)

theorem alistErase_append_single (k : κ) (v : ν) (l : List (κ × ν))
    (h : alistLookup k l = none) : alistErase k (l ++ [(k, v)]) = l := by
  induction l with
  | nil => simp [alistErase]
  | cons e rest ih =>
    simp only [alistLookup_cons] at h
    by_cases he : e.1 = k
    · simp [he] at h
    · rw [List.cons_append, alistErase_cons, if_neg he, ih (by simpa [he] using h)]

/-! ## Order book data model (`order_book.py`) -/

/-- The `Order` dataclass (order_book.py lines 17-25).  `price` is a Python
float, embedded as `ℚ`; `shares` is a Python int. -/
structure Order where
  reference : Int
  price : ℚ
  shares : Int
  side : String
  stock : String
  timestamp : Int
deriving Repr, DecidableEq

/-- One side of a per-symbol book: the dict from price level to total volume
at that level (order_book.py line 43). -/
abbrev Levels := List (ℚ × Int)

/-- The two sides `{"bids": {}, "asks": {}}` of one symbol's book. -/
structure Sides where
  bids : Levels
  asks : Levels
deriving Repr, DecidableEq

def Sides.empty : Sides := ⟨[], []⟩

/-- Which of the two sides an order book operation touches; the string
`"bids"`/`"asks"` computed by the handlers. -/
inductive BookSide | bids | asks
deriving Repr, DecidableEq

/-- `book_side = "bids" if side == "Buy" else "asks"` (order_book.py line 154
and the analogous lines of every handler). -/
def bookSideOf (side : String) : BookSide :=
  if side = "Buy" then .bids else .asks

def Sides.get (s : Sides) : BookSide → Levels
  | .bids => s.bids
  | .asks => s.asks

def Sides.modify (bs : BookSide) (f : Levels → Levels) (s : Sides) : Sides :=
  match bs with
  | .bids => { s with bids := f s.bids }
  | .asks => { s with asks := f s.asks }

@[simp] theorem Sides.get_modify_same (bs : BookSide) (f : Levels → Levels) (s : Sides) :
    (s.modify bs f).get bs = f (s.get bs) := by
  cases bs <;> rfl

theorem Sides.get_modify_ne (bs bs' : BookSide) (f : Levels → Levels) (s : Sides)
    (h : bs' ≠ bs) : (s.modify bs f).get bs' = s.get bs' := by
  cases bs <;> cases bs' <;> first | rfl | exact absurd rfl h

/-- `if price not in book: book[price] = 0` followed by `book[price] += shares`
(order_book.py lines 156-160; also lines 299-302 for replace). -/
def addVolume (p : ℚ) (q : Int) (ls : Levels) : Levels :=
  alistSet p ((alistLookup p ls).getD 0 + q) ls

/-- `if price in book: book[price] -= q; if book[price] <= 0: del book[price]`
(order_book.py lines 186-191, 213-218, 244-249, 277-282).  When the price is
absent nothing happens. -/
def subVolume (p : ℚ) (q : Int) (ls : Levels) : Levels :=
  match alistLookup p ls with
  | none => ls
  | some v => if v - q ≤ 0 then alistErase p ls else alistSet p (v - q) ls

/-- `max(book["bids"].keys())` over an association list, `none` when empty:
the best-bid computation of `_update_best_prices` (order_book.py 313-316). -/
def maxKey (ls : Levels) : Option ℚ :=
  ls.foldr (fun e acc => match acc with
    | none => some e.1
    | some m => some (max e.1 m)) none

/-- `min(book["asks"].keys())`, `none` when empty (order_book.py 319-322). -/
def minKey (ls : Levels) : Option ℚ :=
  ls.foldr (fun e acc => match acc with
    | none => some e.1
    | some m => some (min e.1 m)) none

/-- The message counters dict (order_book.py lines 63-71). -/
structure Counts where
  addOrder : Int
  deleteOrder : Int
  orderExecuted : Int
  orderCancelled : Int
  replaceOrder : Int
  other : Int
  total : Int
deriving Repr, DecidableEq

def Counts.zero : Counts := ⟨0, 0, 0, 0, 0, 0, 0⟩

/-- The mutable state of an `OrderBook` (order_book.py `__init__`).
`price_history` and `snapshot_cache` are omitted: they are write-only for all
observables treated here (read only by the reporting helpers). -/
structure OBState where
  /-- `self.orders : Dict[int, Order]`. -/
  orders : List (Int × Order)
  /-- `self.books`, a defaultdict; a symbol never written maps to the default
  `{"bids": {}, "asks": {}}`. -/
  books : String → Sides
  /-- `self.best_prices`, a defaultdict; `(bid, ask)`, default `(None, None)`. -/
  bestPrices : String → Option ℚ × Option ℚ
  /-- `self.stocks`, the set of stocks seen. -/
  stocks : List String
  /-- `self.message_counts`. -/
  counts : Counts

/-- A fresh `OrderBook()`. -/
def initialState : OBState :=
  { orders := []
    books := fun _ => Sides.empty
    bestPrices := fun _ => (none, none)
    stocks := []
    counts := Counts.zero }

/-- `self.stocks.add(stock)`. -/
def insertStock (st : String) (l : List String) : List String :=
  if st ∈ l then l else st :: l

/-- `_update_best_prices` (order_book.py lines 310-322): recompute the pair
for one stock from its current level maps. -/
def updateBestPrices (stock : String) (s : OBState) : OBState :=
  let best := (maxKey (s.books stock).bids, minKey (s.books stock).asks)
  { s with bestPrices := Function.update s.bestPrices stock best }

/-- `_process_add_order` (order_book.py lines 121-174).  The guard
`if not all([reference, side, shares, stock, price])` rejects exactly the
falsy values: zero ints, zero price, empty strings — negative values pass.
The `.strip()` on the stock string is not modelled (symbols are taken as
given); the final `_update_price_history` call is omitted (write-only). -/
def processAddOrder (reference : Int) (side : String) (shares : Int)
    (stock : String) (price : ℚ) (timestamp : Int) (s : OBState) : OBState :=
  if reference = 0 ∨ side = "" ∨ shares = 0 ∨ stock = "" ∨ price = 0 then s
  else
    let order : Order :=
      { reference := reference, price := price, shares := shares,
        side := side, stock := stock, timestamp := timestamp }
    let s₁ := { s with stocks := insertStock stock s.stocks,
                       orders := alistSet reference order s.orders }
    let bs := bookSideOf side
    let newSides := (s₁.books stock).modify bs (addVolume price shares)
    updateBestPrices stock { s₁ with books := Function.update s₁.books stock newSides }

/-- `_process_delete_order` (order_book.py lines 176-200). -/
def processDeleteOrder (reference : Int) (s : OBState) : OBState :=
  match alistLookup reference s.orders with
  | none => s
  | some order =>
    let bs := bookSideOf order.side
    let newSides := (s.books order.stock).modify bs (subVolume order.price order.shares)
    updateBestPrices order.stock
      { s with books := Function.update s.books order.stock newSides,
               orders := alistErase reference s.orders }

/-- Common body of `_process_order_executed` (order_book.py lines 202-231) and
`_process_order_cancelled` (lines 233-262): the two handlers are verbatim
identical on the book and the registry, differing only in which message
counter `process_message` bumps afterwards.  The book is decremented by the
full message quantity, the order's `shares` field is decremented, and the
order is deleted when its remaining shares drop to `≤ 0`. -/
def execCancelCore (reference : Int) (qty : Int) (s : OBState) : OBState :=
  match alistLookup reference s.orders with
  | none => s
  | some order =>
    if qty ≤ 0 then s
    else
      let bs := bookSideOf order.side
      let newSides := (s.books order.stock).modify bs (subVolume order.price qty)
      let remaining := order.shares - qty
      let orders' :=
        if remaining ≤ 0 then alistErase reference s.orders
        else alistSet reference { order with shares := remaining } s.orders
      updateBestPrices order.stock
        { s with books := Function.update s.books order.stock newSides,
                 orders := orders' }

/-- `_process_replace_order` (order_book.py lines 264-308): remove the old
order's full remaining shares from its level, delete it from the registry,
insert the new order with the old side and stock at the new price/quantity,
and add its shares to the book.  Note that, unlike `_process_add_order`, no
field of the replace message is validated. -/
def processReplaceOrder (oldReference newReference : Int) (newShares : Int)
    (newPrice : ℚ) (timestamp : Int) (s : OBState) : OBState :=
  match alistLookup oldReference s.orders with
  | none => s
  | some oldOrder =>
    let bs := bookSideOf oldOrder.side
    let stock := oldOrder.stock
    let afterSub := (s.books stock).modify bs (subVolume oldOrder.price oldOrder.shares)
    let newOrder : Order :=
      { reference := newReference, price := newPrice, shares := newShares,
        side := oldOrder.side, stock := stock, timestamp := timestamp }
    let orders' := alistSet newReference newOrder (alistErase oldReference s.orders)
    let afterAdd := afterSub.modify bs (addVolume newPrice newShares)
    updateBestPrices stock
      { s with books := Function.update s.books stock afterAdd, orders := orders' }

/-- The decoded ITCH messages dispatched by `process_message`
(order_book.py lines 73-119).  `other` stands for any body key the dispatcher
does not recognise. -/
inductive Msg where
  | addOrder (reference : Int) (side : String) (shares : Int) (stock : String)
      (price : ℚ) (timestamp : Int)
  | deleteOrder (reference : Int)
  | orderExecuted (reference : Int) (shares : Int)
  | orderCancelled (reference : Int) (shares : Int)
  | replaceOrder (reference newReference : Int) (shares : Int) (price : ℚ)
      (timestamp : Int)
  | other
deriving Repr, DecidableEq

/-- `OrderBook.process_message`: bump the total counter, dispatch on the body
key, bump the per-type counter. -/
def processMessage (s : OBState) (m : Msg) : OBState :=
  let s := { s with counts := { s.counts with total := s.counts.total + 1 } }
  match m with
  | .addOrder r side sh st p ts =>
    let s := processAddOrder r side sh st p ts s
    { s with counts := { s.counts with addOrder := s.counts.addOrder + 1 } }
  | .deleteOrder r =>
    let s := processDeleteOrder r s
    { s with counts := { s.counts with deleteOrder := s.counts.deleteOrder + 1 } }
  | .orderExecuted r sh =>
    let s := execCancelCore r sh s
    { s with counts := { s.counts with orderExecuted := s.counts.orderExecuted + 1 } }
  | .orderCancelled r sh =>
    let s := execCancelCore r sh s
    { s with counts := { s.counts with orderCancelled := s.counts.orderCancelled + 1 } }
  | .replaceOrder r nr sh p ts =>
    let s := processReplaceOrder r nr sh p ts s
    { s with counts := { s.counts with replaceOrder := s.counts.replaceOrder + 1 } }
  | .other =>
    { s with counts := { s.counts with other := s.counts.other + 1 } }

/-- Fold a message stream over `process_message`. -/
def processMessages (s : OBState) (ms : List Msg) : OBState :=
  ms.foldl processMessage s

/-! ## Sums over level maps and over the registry -/

/-- Total volume recorded on one side of a book: `sum(levels.values())`. -/
def levelSum (ls : Levels) : Int := (ls.map Prod.snd).sum

/-- Does this registry entry live on side `bs` of `stock`'s book?  An order
sits on the `bids` side iff its `side` string is `"Buy"`. -/
def sideKey (stock : String) (bs : BookSide) (e : Int × Order) : Bool :=
  decide (e.2.stock = stock ∧ bookSideOf e.2.side = bs)

/-- Does this registry entry live at price `p` on side `bs` of `stock`? -/
def priceKey (stock : String) (bs : BookSide) (p : ℚ) (e : Int × Order) : Bool :=
  decide (e.2.stock = stock ∧ bookSideOf e.2.side = bs ∧ e.2.price = p)

section SumLemmas

variable {κ : Type} [DecidableEq κ] {ν : Type}

/-- Generic weighted sum of a filtered association list, the common shape of
`shareSumL` and `shareSumAtL`. -/
def filterSum (p : κ × ν → Bool) (w : κ × ν → Int) (l : List (κ × ν)) : Int :=
  ((l.filter p).map w).sum

theorem filterSum_nil (p : κ × ν → Bool) (w : κ × ν → Int) :
    filterSum p w ([] : List (κ × ν)) = 0 := rfl

theorem filterSum_cons (p : κ × ν → Bool) (w : κ × ν → Int) (e : κ × ν) (l : List (κ × ν)) :
    filterSum p w (e :: l) = (if p e then w e else 0) + filterSum p w l := by
  by_cases h : p e <;> simp [filterSum, h]

theorem filterSum_append (p : κ × ν → Bool) (w : κ × ν → Int) (l l' : List (κ × ν)) :
    filterSum p w (l ++ l') = filterSum p w l + filterSum p w l' := by
  simp [filterSum]

theorem alistLookup_eq_none_iff (k : κ) (l : List (κ × ν)) :
    alistLookup k l = none ↔ k ∉ l.map Prod.fst := by
  induction l with
  | nil => simp
  | cons e rest ih =>
    by_cases h : e.1 = k
    · simp [h]
    · simp only [alistLookup_cons, if_neg h, List.map_cons, List.mem_cons, ih]
      constructor
      · intro hk h'
        rcases h' with h' | hmem
        · exact h h'.symm
        · exact hk hmem
      · intro hk hmem
        exact hk (Or.inr hmem)

theorem alistLookup_isSome_of_mem (e : κ × ν) (l : List (κ × ν)) (h : e ∈ l) :
    (alistLookup e.1 l).isSome := by
  induction l with
  | nil => simp at h
  | cons f rest ih =>
    rcases List.mem_cons.mp h with rfl | h'
    · simp
    · by_cases hf : f.1 = e.1 <;> simp [hf, ih h']

/-- Removing the (unique) binding of `k` subtracts its contribution. -/
theorem filterSum_erase (p : κ × ν → Bool) (w : κ × ν → Int) (k : κ) (v : ν)
    (l : List (κ × ν)) (hnd : (l.map Prod.fst).Nodup) (hl : alistLookup k l = some v) :
    filterSum p w (alistErase k l) =
      filterSum p w l - (if p (k, v) then w (k, v) else 0) := by
  induction l with
  | nil => simp at hl
  | cons e rest ih =>
    obtain ⟨e1, e2⟩ := e
    simp only [List.map_cons, List.nodup_cons] at hnd
    rw [alistErase_cons]
    by_cases he : e1 = k
    · subst he
      simp at hl
      subst hl
      have herase : alistErase e1 rest = rest := by
        have hall : ∀ f ∈ rest, f.1 ≠ e1 := by
          intro f hf hfe
          exact hnd.1 (hfe ▸ List.mem_map_of_mem Prod.fst hf)
        exact List.filter_eq_self.mpr (fun f hf => by simpa using hall f hf)
      rw [if_pos rfl, herase, filterSum_cons]
      ring
    · rw [if_neg he, filterSum_cons, filterSum_cons,
        ih hnd.2 (by simpa [he] using hl)]
      ring

/-- Overwriting the (unique) binding of `k` swaps its contribution. -/
theorem filterSum_set (p : κ × ν → Bool) (w : κ × ν → Int) (k : κ) (v v' : ν)
    (l : List (κ × ν)) (hl : alistLookup k l = some v) :
    filterSum p w (alistSet k v' l) =
      filterSum p w l - (if p (k, v) then w (k, v) else 0)
        + (if p (k, v') then w (k, v') else 0) := by
  induction l with
  | nil => simp at hl
  | cons e rest ih =>
    obtain ⟨e1, e2⟩ := e
    by_cases he : e1 = k
    · subst he
      simp at hl
      subst hl
      have hset : alistSet e1 v' ((e1, e2) :: rest) = (e1, v') :: rest := by
        simp [alistSet]
      rw [hset, filterSum_cons, filterSum_cons]
      ring
    · simp only [alistSet, if_neg he]
      rw [filterSum_cons, filterSum_cons, ih (by simpa [he] using hl)]
      ring

theorem alistKeys_set (k : κ) (v : ν) (l : List (κ × ν)) :
    (alistSet k v l).map Prod.fst =
      (if (alistLookup k l).isSome then l.map Prod.fst else l.map Prod.fst ++ [k]) := by
  induction l with
  | nil => simp [alistSet]
  | cons e rest ih =>
    by_cases he : e.1 = k
    · simp [alistSet, he]
    · simp only [alistSet, if_neg he, List.map_cons, alistLookup_cons, he, if_false, ih]
      by_cases h : (alistLookup k rest).isSome <;> simp [h]

theorem alistKeys_set_nodup (k : κ) (v : ν) (l : List (κ × ν))
    (h : (l.map Prod.fst).Nodup) : ((alistSet k v l).map Prod.fst).Nodup := by
  rw [alistKeys_set]
  by_cases hs : (alistLookup k l).isSome
  · simpa [hs]
  · rw [if_neg hs]
    refine List.Nodup.append h (by simp) ?_
    intro a ha hb
    simp only [List.mem_singleton] at hb
    subst hb
    exact hs (by
      rcases List.mem_map.mp ha with ⟨e, he, hek⟩
      exact hek ▸ alistLookup_isSome_of_mem e l he)

theorem alistKeys_erase_nodup (k : κ) (l : List (κ × ν))
    (h : (l.map Prod.fst).Nodup) : ((alistErase k l).map Prod.fst).Nodup :=
  ((l.filter_sublist).map Prod.fst).nodup h

end SumLemmas

/-- Sum of `Order.shares` over all registry orders booked at `(stock, bs)`. -/
def shareSumL (orders : List (Int × Order)) (stock : String) (bs : BookSide) : Int :=
  filterSum (sideKey stock bs) (fun e => e.2.shares) orders

/-- Sum of `Order.shares` over registry orders at `(stock, bs)` with a given
price level. -/
def shareSumAtL (orders : List (Int × Order)) (stock : String) (bs : BookSide) (p : ℚ) : Int :=
  filterSum (priceKey stock bs p) (fun e => e.2.shares) orders

/-! ## Behaviour of `addVolume` and `subVolume` -/

theorem levelSum_nil : levelSum [] = 0 := rfl

theorem levelSum_cons (e : ℚ × Int) (ls : Levels) :
    levelSum (e :: ls) = e.2 + levelSum ls := by simp [levelSum]

theorem levelSum_append (ls ls' : Levels) :
    levelSum (ls ++ ls') = levelSum ls + levelSum ls' := by simp [levelSum]

theorem levelSum_eq_filterSum (ls : Levels) :
    levelSum ls = filterSum (fun _ => true) Prod.snd ls := by
  simp [levelSum, filterSum]

theorem alistLookup_addVolume_self (p : ℚ) (q : Int) (ls : Levels) :
    alistLookup p (addVolume p q ls) = some ((alistLookup p ls).getD 0 + q) :=
  alistLookup_set_self ..

theorem alistLookup_addVolume_ne (p p' : ℚ) (q : Int) (ls : Levels) (h : p' ≠ p) :
    alistLookup p' (addVolume p q ls) = alistLookup p' ls :=
  alistLookup_set_ne _ _ _ _ h

theorem alistLookup_subVolume_self (p : ℚ) (q : Int) (ls : Levels) :
    alistLookup p (subVolume p q ls) =
      (match alistLookup p ls with
       | none => none
       | some v => if v - q ≤ 0 then none else some (v - q)) := by
  unfold subVolume
  cases h : alistLookup p ls with
  | none => simp [h]
  | some v =>
    by_cases hv : v - q ≤ 0
    · simp [hv, alistLookup_erase_self]
    · simp [hv, alistLookup_set_self]

theorem alistLookup_subVolume_ne (p p' : ℚ) (q : Int) (ls : Levels) (h : p' ≠ p) :
    alistLookup p' (subVolume p q ls) = alistLookup p' ls := by
  unfold subVolume
  cases hl : alistLookup p ls with
  | none => rfl
  | some v =>
    by_cases hv : v - q ≤ 0
    · simp [hv, alistLookup_erase_ne _ _ _ h]
    · simp [hv, alistLookup_set_ne _ _ _ _ h]

theorem levelSum_addVolume (p : ℚ) (q : Int) (ls : Levels) :
    levelSum (addVolume p q ls) = levelSum ls + q := by
  unfold addVolume
  cases h : alistLookup p ls with
  | none =>
    rw [alistSet_fresh _ _ _ h, levelSum_append]
    simp [levelSum]
  | some v =>
    rw [levelSum_eq_filterSum, filterSum_set _ _ _ v _ _ h, ← levelSum_eq_filterSum]
    simp
    ring

theorem levelSum_erase_of_lookup (p : ℚ) (v : Int) (ls : Levels)
    (hnd : (ls.map Prod.fst).Nodup) (h : alistLookup p ls = some v) :
    levelSum (alistErase p ls) = levelSum ls - v := by
  rw [levelSum_eq_filterSum, filterSum_erase _ _ _ v _ hnd h, ← levelSum_eq_filterSum]
  simp

theorem levelSum_subVolume (p : ℚ) (q v : Int) (ls : Levels)
    (hnd : (ls.map Prod.fst).Nodup) (hv : alistLookup p ls = some v) (hq : q ≤ v) :
    levelSum (subVolume p q ls) = levelSum ls - q := by
  unfold subVolume
  rw [hv]
  by_cases h0 : v - q ≤ 0
  · have : v = q := le_antisymm (by omega) hq
    subst this
    simp [levelSum_erase_of_lookup _ _ _ hnd hv]
  · simp only [h0, if_false]
    rw [levelSum_eq_filterSum, filterSum_set _ _ _ v _ _ hv, ← levelSum_eq_filterSum]
    simp only [if_pos rfl]
    ring_nf
    simp

theorem nodup_addVolume (p : ℚ) (q : Int) (ls : Levels)
    (h : (ls.map Prod.fst).Nodup) : ((addVolume p q ls).map Prod.fst).Nodup :=
  alistKeys_set_nodup _ _ _ h

theorem nodup_subVolume (p : ℚ) (q : Int) (ls : Levels)
    (h : (ls.map Prod.fst).Nodup) : ((subVolume p q ls).map Prod.fst).Nodup := by
  unfold subVolume
  cases alistLookup p ls with
  | none => exact h
  | some v =>
    by_cases hv : v - q ≤ 0
    · simpa [hv] using alistKeys_erase_nodup p ls h
    · simpa [hv] using alistKeys_set_nodup p (v - q) ls h

/-! ## The book/registry conservation invariant -/

theorem alistLookup_mem {κ ν : Type} [DecidableEq κ] (k : κ) (v : ν)
    (l : List (κ × ν)) (h : alistLookup k l = some v) : (k, v) ∈ l := by
  induction l with
  | nil => simp at h
  | cons e rest ih =>
    by_cases he : e.1 = k
    · obtain ⟨e1, e2⟩ := e
      subst he
      simp at h
      simp [h]
    · simp only [alistLookup_cons, if_neg he] at h
      exact List.mem_cons_of_mem _ (ih h)

theorem mem_of_mem_erase {κ ν : Type} [DecidableEq κ] (k : κ) (e : κ × ν)
    (l : List (κ × ν)) (h : e ∈ alistErase k l) : e ∈ l :=
  List.mem_of_mem_filter h

theorem filterSum_nonneg {κ ν : Type} [DecidableEq κ] (p : κ × ν → Bool)
    (w : κ × ν → Int) (l : List (κ × ν)) (h : ∀ e ∈ l, p e = true → 0 ≤ w e) :
    0 ≤ filterSum p w l := by
  induction l with
  | nil => simp [filterSum_nil]
  | cons e rest ih =>
    rw [filterSum_cons]
    have h1 : 0 ≤ (if p e then w e else 0) := by
      by_cases hp : p e
      · simpa [hp] using h e (List.mem_cons_self e rest) hp
      · simp [hp]
    have h2 := ih (fun f hf => h f (List.mem_cons_of_mem _ hf))
    omega

/-- The strong shape invariant connecting the registry to the level maps,
established below for every message stream without over-execution,
over-cancellation, duplicate references or non-positive added quantities.
`levelSpec` says each price level carries exactly the registry shares parked
there and exists exactly when that sum is positive; `sumEq` is the per-side
volume conservation equation built from it. -/
structure BookInv (s : OBState) : Prop where
  posShares : ∀ e ∈ s.orders, 0 < e.2.shares
  nodupOrders : (s.orders.map Prod.fst).Nodup
  nodupLevels : ∀ stock bs, (((s.books stock).get bs).map Prod.fst).Nodup
  levelSpec : ∀ stock bs p,
      alistLookup p ((s.books stock).get bs) =
        (if 0 < shareSumAtL s.orders stock bs p
         then some (shareSumAtL s.orders stock bs p) else none)
  sumEq : ∀ stock bs,
      levelSum ((s.books stock).get bs) = shareSumL s.orders stock bs

theorem BookInv.of_eq {s t : OBState} (inv : BookInv s)
    (hor : t.orders = s.orders) (hbk : t.books = s.books) : BookInv t := by
  refine ⟨?_, ?_, ?_, ?_, ?_⟩ <;> simp only [hor, hbk]
  · exact inv.posShares
  · exact inv.nodupOrders
  · exact inv.nodupLevels
  · exact inv.levelSpec
  · exact inv.sumEq

theorem shareSumAtL_nonneg (orders : List (Int × Order)) (stock : String)
    (bs : BookSide) (p : ℚ) (h : ∀ e ∈ orders, 0 < e.2.shares) :
    0 ≤ shareSumAtL orders stock bs p :=
  filterSum_nonneg _ _ _ (fun e he _ => le_of_lt (h e he))

/-- Under the invariant, `getD 0` of a level lookup is exactly the per-level
registry sum. -/
theorem BookInv.lookup_getD {s : OBState} (inv : BookInv s) (stock : String)
    (bs : BookSide) (p : ℚ) :
    (alistLookup p ((s.books stock).get bs)).getD 0 = shareSumAtL s.orders stock bs p := by
  rw [inv.levelSpec stock bs p]
  by_cases h : 0 < shareSumAtL s.orders stock bs p
  · simp [h]
  · have h0 := shareSumAtL_nonneg s.orders stock bs p inv.posShares
    simp [h]
    omega

theorem mem_alistSet {κ ν : Type} [DecidableEq κ] (e : κ × ν) (k : κ) (v : ν)
    (l : List (κ × ν)) (h : e ∈ alistSet k v l) : e = (k, v) ∨ e ∈ l := by
  induction l with
  | nil => simpa [alistSet] using h
  | cons f rest ih =>
    by_cases hf : f.1 = k
    · simp only [alistSet, if_pos hf] at h
      rcases List.mem_cons.mp h with h | h
      · exact Or.inl h
      · exact Or.inr (List.mem_cons_of_mem _ h)
    · simp only [alistSet, if_neg hf] at h
      rcases List.mem_cons.mp h with h | h
      · exact Or.inr (h ▸ List.mem_cons_self _ _)
      · rcases ih h with h | h
        · exact Or.inl h
        · exact Or.inr (List.mem_cons_of_mem _ h)

theorem priceKey_self (o : Order) (r : Int) :
    priceKey o.stock (bookSideOf o.side) o.price (r, o) = true := by
  simp [priceKey]

theorem sideKey_self (o : Order) (r : Int) :
    sideKey o.stock (bookSideOf o.side) (r, o) = true := by
  simp [sideKey]

theorem priceKey_eq_false (stock : String) (bs : BookSide) (p : ℚ) (r : Int) (o : Order)
    (h : ¬(stock = o.stock ∧ bs = bookSideOf o.side ∧ p = o.price)) :
    priceKey stock bs p (r, o) = false := by
  simp only [priceKey, decide_eq_false_iff_not]
  intro hc
  exact h ⟨hc.1.symm, hc.2.1.symm, hc.2.2.symm⟩

theorem sideKey_eq_false (stock : String) (bs : BookSide) (r : Int) (o : Order)
    (h : ¬(stock = o.stock ∧ bs = bookSideOf o.side)) :
    sideKey stock bs (r, o) = false := by
  simp only [sideKey, decide_eq_false_iff_not]
  intro hc
  exact h ⟨hc.1.symm, hc.2.symm⟩

theorem priceKey_shares_update (stock : String) (bs : BookSide) (p : ℚ) (r x : Int)
    (o : Order) : priceKey stock bs p (r, { o with shares := x }) = priceKey stock bs p (r, o) := rfl

theorem sideKey_shares_update (stock : String) (bs : BookSide) (r x : Int)
    (o : Order) : sideKey stock bs (r, { o with shares := x }) = sideKey stock bs (r, o) := rfl

theorem shareSumAtL_append (orders : List (Int × Order)) (r : Int) (o : Order)
    (stock : String) (bs : BookSide) (p : ℚ) :
    shareSumAtL (orders ++ [(r, o)]) stock bs p =
      shareSumAtL orders stock bs p + (if priceKey stock bs p (r, o) then o.shares else 0) := by
  unfold shareSumAtL
  rw [filterSum_append]
  congr 1
  rw [filterSum_cons, filterSum_nil]
  ring

theorem shareSumL_append (orders : List (Int × Order)) (r : Int) (o : Order)
    (stock : String) (bs : BookSide) :
    shareSumL (orders ++ [(r, o)]) stock bs =
      shareSumL orders stock bs + (if sideKey stock bs (r, o) then o.shares else 0) := by
  unfold shareSumL
  rw [filterSum_append]
  congr 1
  rw [filterSum_cons, filterSum_nil]
  ring

/-- Books coordinate analysis common to the two stage lemmas. -/
theorem books_get_update (s : OBState) (o : Order) (f : Levels → Levels)
    (stock : String) (bs : BookSide) :
    ((Function.update s.books o.stock
        ((s.books o.stock).modify (bookSideOf o.side) f)) stock).get bs =
      (if stock = o.stock ∧ bs = bookSideOf o.side
       then f ((s.books stock).get bs) else (s.books stock).get bs) := by
  by_cases hst : stock = o.stock
  · subst hst
    rw [Function.update_same]
    by_cases hbs : bs = bookSideOf o.side
    · subst hbs
      simp
    · rw [Sides.get_modify_ne _ _ _ _ hbs, if_neg (fun hc => hbs hc.2)]
  · rw [Function.update_noteq hst, if_neg (fun hc => hst hc.1)]

/-- Adding a fresh positive-quantity order and booking its shares at its
price level preserves the invariant: the add stage of `_process_add_order`
and the second half of `_process_replace_order`. -/
theorem BookInv.add_stage {s t : OBState} (inv : BookInv s) (r : Int) (o : Order)
    (hfresh : alistLookup r s.orders = none) (hpos : 0 < o.shares)
    (hor : t.orders = alistSet r o s.orders)
    (hbk : t.books = Function.update s.books o.stock
        ((s.books o.stock).modify (bookSideOf o.side) (addVolume o.price o.shares))) :
    BookInv t := by
  have horders : t.orders = s.orders ++ [(r, o)] := by
    rw [hor, alistSet_fresh _ _ _ hfresh]
  have hget : ∀ stock bs, (t.books stock).get bs =
      (if stock = o.stock ∧ bs = bookSideOf o.side
       then addVolume o.price o.shares ((s.books stock).get bs)
       else (s.books stock).get bs) := by
    intro stock bs
    rw [hbk, books_get_update]
  have hsumAt : ∀ stock bs p, shareSumAtL t.orders stock bs p =
      shareSumAtL s.orders stock bs p +
        (if priceKey stock bs p (r, o) then o.shares else 0) := by
    intro stock bs p
    rw [horders, shareSumAtL_append]
  have hsum : ∀ stock bs, shareSumL t.orders stock bs =
      shareSumL s.orders stock bs + (if sideKey stock bs (r, o) then o.shares else 0) := by
    intro stock bs
    rw [horders, shareSumL_append]
  refine ⟨?_, ?_, ?_, ?_, ?_⟩
  · intro e he
    rw [horders] at he
    rcases List.mem_append.mp he with h | h
    · exact inv.posShares e h
    · simp only [List.mem_singleton] at h
      subst h
      exact hpos
  · rw [hor]
    exact alistKeys_set_nodup _ _ _ inv.nodupOrders
  · intro stock bs
    rw [hget]
    by_cases h : stock = o.stock ∧ bs = bookSideOf o.side
    · rw [if_pos h]
      exact nodup_addVolume _ _ _ (inv.nodupLevels stock bs)
    · rw [if_neg h]
      exact inv.nodupLevels stock bs
  · intro stock bs p
    rw [hget, hsumAt]
    by_cases hmain : stock = o.stock ∧ bs = bookSideOf o.side ∧ p = o.price
    · obtain ⟨h1, h2, h3⟩ := hmain
      rw [if_pos ⟨h1, h2⟩]
      subst h1; subst h2; subst h3
      rw [alistLookup_addVolume_self, inv.lookup_getD, if_pos (priceKey_self o r)]
      have hnn := shareSumAtL_nonneg s.orders o.stock (bookSideOf o.side) o.price inv.posShares
      rw [if_pos (by omega)]
    · rw [priceKey_eq_false _ _ _ _ _ hmain]
      simp only [Bool.false_eq_true, if_false, add_zero]
      by_cases hsb : stock = o.stock ∧ bs = bookSideOf o.side
      · rw [if_pos hsb]
        have hp : p ≠ o.price := fun hp => hmain ⟨hsb.1, hsb.2, hp⟩
        rw [alistLookup_addVolume_ne _ _ _ _ hp, inv.levelSpec]
      · rw [if_neg hsb, inv.levelSpec]
  · intro stock bs
    rw [hget, hsum]
    by_cases hsb : stock = o.stock ∧ bs = bookSideOf o.side
    · rw [if_pos hsb, levelSum_addVolume, inv.sumEq]
      obtain ⟨h1, h2⟩ := hsb
      subst h1; subst h2
      rw [if_pos (sideKey_self o r)]
    · rw [if_neg hsb, inv.sumEq, sideKey_eq_false _ _ _ _ hsb]
      simp

/-- Decrementing a registered order by `0 < q ≤ remaining` — the shared body
of `_process_order_executed` / `_process_order_cancelled` when the quantity
does not over-execute, `_process_delete_order` (where `q = remaining`), and
the first half of `_process_replace_order` — preserves the invariant. -/
theorem BookInv.exec_stage {s t : OBState} (inv : BookInv s) (r q : Int) (o : Order)
    (ho : alistLookup r s.orders = some o) (hq0 : 0 < q) (hq : q ≤ o.shares)
    (hor : t.orders = (if o.shares - q ≤ 0 then alistErase r s.orders
        else alistSet r { o with shares := o.shares - q } s.orders))
    (hbk : t.books = Function.update s.books o.stock
        ((s.books o.stock).modify (bookSideOf o.side) (subVolume o.price q))) :
    BookInv t := by
  have hget : ∀ stock bs, (t.books stock).get bs =
      (if stock = o.stock ∧ bs = bookSideOf o.side
       then subVolume o.price q ((s.books stock).get bs)
       else (s.books stock).get bs) := by
    intro stock bs
    rw [hbk, books_get_update]
  have hsumAt : ∀ stock bs p, shareSumAtL t.orders stock bs p =
      shareSumAtL s.orders stock bs p - (if priceKey stock bs p (r, o) then q else 0) := by
    intro stock bs p
    rw [hor]
    by_cases hrem : o.shares - q ≤ 0
    · have heq : o.shares = q := le_antisymm (by omega) hq
      rw [if_pos hrem]
      unfold shareSumAtL
      rw [filterSum_erase _ _ _ o _ inv.nodupOrders ho]
      by_cases hk : priceKey stock bs p (r, o)
      · simp only [hk, if_true]
        omega
      · simp [hk]
    · rw [if_neg hrem]
      unfold shareSumAtL
      rw [filterSum_set _ _ _ o _ _ ho,
        show priceKey stock bs p (r, { o with shares := o.shares - q })
          = priceKey stock bs p (r, o) from rfl]
      by_cases hk : priceKey stock bs p (r, o)
      · simp [hk]
      · simp [hk]
  have hsum : ∀ stock bs, shareSumL t.orders stock bs =
      shareSumL s.orders stock bs - (if sideKey stock bs (r, o) then q else 0) := by
    intro stock bs
    rw [hor]
    by_cases hrem : o.shares - q ≤ 0
    · have heq : o.shares = q := le_antisymm (by omega) hq
      rw [if_pos hrem]
      unfold shareSumL
      rw [filterSum_erase _ _ _ o _ inv.nodupOrders ho]
      by_cases hk : sideKey stock bs (r, o)
      · simp only [hk, if_true]
        omega
      · simp [hk]
    · rw [if_neg hrem]
      unfold shareSumL
      rw [filterSum_set _ _ _ o _ _ ho,
        show sideKey stock bs (r, { o with shares := o.shares - q })
          = sideKey stock bs (r, o) from rfl]
      by_cases hk : sideKey stock bs (r, o)
      · simp [hk]
      · simp [hk]
  have hbig : o.shares ≤ shareSumAtL s.orders o.stock (bookSideOf o.side) o.price := by
    have herase : shareSumAtL (alistErase r s.orders) o.stock (bookSideOf o.side) o.price =
        shareSumAtL s.orders o.stock (bookSideOf o.side) o.price - o.shares := by
      unfold shareSumAtL
      rw [filterSum_erase _ _ _ o _ inv.nodupOrders ho, if_pos (priceKey_self o r)]
    have hnn : 0 ≤ shareSumAtL (alistErase r s.orders) o.stock (bookSideOf o.side) o.price :=
      shareSumAtL_nonneg _ _ _ _ (fun e he => inv.posShares e (mem_of_mem_erase _ _ _ he))
    omega
  refine ⟨?_, ?_, ?_, ?_, ?_⟩
  · intro e he
    rw [hor] at he
    by_cases hrem : o.shares - q ≤ 0
    · rw [if_pos hrem] at he
      exact inv.posShares e (mem_of_mem_erase _ _ _ he)
    · rw [if_neg hrem] at he
      rcases mem_alistSet _ _ _ _ he with h | h
      · subst h
        simp only []
        omega
      · exact inv.posShares e h
  · rw [hor]
    by_cases hrem : o.shares - q ≤ 0
    · rw [if_pos hrem]
      exact alistKeys_erase_nodup _ _ inv.nodupOrders
    · rw [if_neg hrem]
      exact alistKeys_set_nodup _ _ _ inv.nodupOrders
  · intro stock bs
    rw [hget]
    by_cases h : stock = o.stock ∧ bs = bookSideOf o.side
    · rw [if_pos h]
      exact nodup_subVolume _ _ _ (inv.nodupLevels stock bs)
    · rw [if_neg h]
      exact inv.nodupLevels stock bs
  · intro stock bs p
    rw [hget, hsumAt]
    by_cases hmain : stock = o.stock ∧ bs = bookSideOf o.side ∧ p = o.price
    · obtain ⟨h1, h2, h3⟩ := hmain
      rw [if_pos ⟨h1, h2⟩]
      subst h1; subst h2; subst h3
      rw [if_pos (priceKey_self o r)]
      have hlv : alistLookup o.price ((s.books o.stock).get (bookSideOf o.side)) =
          some (shareSumAtL s.orders o.stock (bookSideOf o.side) o.price) := by
        rw [inv.levelSpec, if_pos (by omega)]
      rw [alistLookup_subVolume_self, hlv]
      show (if shareSumAtL s.orders o.stock (bookSideOf o.side) o.price - q ≤ 0 then none
            else some (shareSumAtL s.orders o.stock (bookSideOf o.side) o.price - q)) = _
      by_cases hc : shareSumAtL s.orders o.stock (bookSideOf o.side) o.price - q ≤ 0
      · rw [if_pos hc, if_neg (by omega)]
      · rw [if_neg hc, if_pos (by omega)]
    · rw [priceKey_eq_false _ _ _ _ _ hmain]
      simp only [Bool.false_eq_true, if_false, sub_zero]
      by_cases hsb : stock = o.stock ∧ bs = bookSideOf o.side
      · rw [if_pos hsb]
        have hp : p ≠ o.price := fun hp => hmain ⟨hsb.1, hsb.2, hp⟩
        rw [alistLookup_subVolume_ne _ _ _ _ hp, inv.levelSpec]
      · rw [if_neg hsb, inv.levelSpec]
  · intro stock bs
    rw [hget, hsum]
    by_cases hsb : stock = o.stock ∧ bs = bookSideOf o.side
    · rw [if_pos hsb]
      obtain ⟨h1, h2⟩ := hsb
      subst h1; subst h2
      rw [if_pos (sideKey_self o r)]
      have hlv : alistLookup o.price ((s.books o.stock).get (bookSideOf o.side)) =
          some (shareSumAtL s.orders o.stock (bookSideOf o.side) o.price) := by
        rw [inv.levelSpec, if_pos (by omega)]
      rw [levelSum_subVolume _ q _ _ (inv.nodupLevels _ _) hlv (by omega), inv.sumEq]
    · rw [if_neg hsb, sideKey_eq_false _ _ _ _ hsb, inv.sumEq]
      simp

/-! ## Message streams without the pathologies the code does not guard against

`goodStep` singles out, at each state, the messages the handlers process
without corrupting the registry/book correspondence: added and replaced
quantities must be positive, added and replacement references fresh, and an
Execute/Cancel must not exceed the referenced order's remaining shares. -/

def goodStep (s : OBState) : Msg → Bool
  | .addOrder r _ sh _ _ _ => decide (0 < sh) && (alistLookup r s.orders).isNone
  | .orderExecuted r q =>
      (match alistLookup r s.orders with
       | none => true
       | some o => decide (q ≤ o.shares))
  | .orderCancelled r q =>
      (match alistLookup r s.orders with
       | none => true
       | some o => decide (q ≤ o.shares))
  | .replaceOrder r nr sh _ _ =>
      decide (0 < sh) && (alistLookup nr (alistErase r s.orders)).isNone
  | _ => true

def goodRun (s : OBState) : List Msg → Bool
  | [] => true
  | m :: ms => goodStep s m && goodRun (processMessage s m) ms

theorem bookInv_processAddOrder (s : OBState) (inv : BookInv s)
    (r : Int) (side : String) (sh : Int) (st : String) (p : ℚ) (ts : Int)
    (hsh : 0 < sh) (hfresh : alistLookup r s.orders = none) :
    BookInv (processAddOrder r side sh st p ts s) := by
  unfold processAddOrder
  by_cases hrej : r = 0 ∨ side = "" ∨ sh = 0 ∨ st = "" ∨ p = 0
  · rw [if_pos hrej]
    exact inv
  · rw [if_neg hrej]
    exact inv.add_stage r ⟨r, p, sh, side, st, ts⟩ hfresh hsh rfl rfl

theorem bookInv_processDeleteOrder (s : OBState) (inv : BookInv s) (r : Int) :
    BookInv (processDeleteOrder r s) := by
  unfold processDeleteOrder
  split
  · exact inv
  · rename_i o ho
    have hopos : 0 < o.shares := inv.posShares (r, o) (alistLookup_mem _ _ _ ho)
    refine inv.exec_stage r o.shares o ho hopos le_rfl ?_ rfl
    rw [if_pos (show o.shares - o.shares ≤ 0 by omega)]
    rfl

theorem bookInv_execCancelCore (s : OBState) (inv : BookInv s) (r q : Int)
    (hg : ∀ o, alistLookup r s.orders = some o → q ≤ o.shares) :
    BookInv (execCancelCore r q s) := by
  unfold execCancelCore
  split
  · exact inv
  · rename_i o ho
    split
    · exact inv
    · rename_i hq0
      exact inv.exec_stage r q o ho (by omega) (hg o ho) rfl rfl

theorem bookInv_processReplaceOrder (s : OBState) (inv : BookInv s)
    (r nr sh : Int) (p : ℚ) (ts : Int)
    (hsh : 0 < sh) (hfresh : alistLookup nr (alistErase r s.orders) = none) :
    BookInv (processReplaceOrder r nr sh p ts s) := by
  unfold processReplaceOrder
  split
  · exact inv
  · rename_i o ho
    have hopos : 0 < o.shares := inv.posShares (r, o) (alistLookup_mem _ _ _ ho)
    have inv1 : BookInv (OBState.mk (alistErase r s.orders)
        (Function.update s.books o.stock
          ((s.books o.stock).modify (bookSideOf o.side) (subVolume o.price o.shares)))
        s.bestPrices s.stocks s.counts) := by
      refine inv.exec_stage r o.shares o ho hopos le_rfl ?_ rfl
      rw [if_pos (show o.shares - o.shares ≤ 0 by omega)]
    refine inv1.add_stage nr ⟨nr, p, sh, o.side, o.stock, ts⟩ hfresh hsh rfl ?_
    simp only [updateBestPrices, Function.update_same, Function.update_idem]

theorem bookInv_processMessage (s : OBState) (m : Msg) (inv : BookInv s)
    (hg : goodStep s m = true) : BookInv (processMessage s m) := by
  have inv0 : BookInv { s with counts := { s.counts with total := s.counts.total + 1 } } :=
    inv.of_eq rfl rfl
  cases m with
  | addOrder r side sh st p ts =>
    simp only [goodStep, Bool.and_eq_true, decide_eq_true_eq,
      Option.isNone_iff_eq_none] at hg
    exact (bookInv_processAddOrder _ inv0 r side sh st p ts hg.1 hg.2).of_eq rfl rfl
  | deleteOrder r =>
    exact (bookInv_processDeleteOrder _ inv0 r).of_eq rfl rfl
  | orderExecuted r q =>
    simp only [goodStep] at hg
    refine (bookInv_execCancelCore _ inv0 r q ?_).of_eq rfl rfl
    intro o ho
    have ho' : alistLookup r s.orders = some o := ho
    rw [ho'] at hg
    exact of_decide_eq_true hg
  | orderCancelled r q =>
    simp only [goodStep] at hg
    refine (bookInv_execCancelCore _ inv0 r q ?_).of_eq rfl rfl
    intro o ho
    have ho' : alistLookup r s.orders = some o := ho
    rw [ho'] at hg
    exact of_decide_eq_true hg
  | replaceOrder r nr sh p ts =>
    simp only [goodStep, Bool.and_eq_true, decide_eq_true_eq,
      Option.isNone_iff_eq_none] at hg
    exact (bookInv_processReplaceOrder _ inv0 r nr sh p ts hg.1 hg.2).of_eq rfl rfl
  | other =>
    exact inv.of_eq rfl rfl

theorem bookInv_initial : BookInv initialState := by
  refine ⟨?_, ?_, ?_, ?_, ?_⟩
  · intro e he
    simp [initialState] at he
  · simp [initialState]
  · intro stock bs
    cases bs <;> simp [initialState, Sides.empty, Sides.get]
  · intro stock bs p
    cases bs <;>
      simp [initialState, Sides.empty, Sides.get, shareSumAtL, filterSum, filterSum_nil]
  · intro stock bs
    cases bs <;>
      simp [initialState, Sides.empty, Sides.get, shareSumL, levelSum, filterSum, filterSum_nil]

theorem bookInv_processMessages (s : OBState) (ms : List Msg) (inv : BookInv s)
    (hg : goodRun s ms = true) : BookInv (processMessages s ms) := by
  induction ms generalizing s with
  | nil => exact inv
  | cons m rest ih =>
    simp only [goodRun, Bool.and_eq_true] at hg
    exact ih _ (bookInv_processMessage _ _ inv hg.1) hg.2

/-! ## Best-price consistency -/

/-- After every message, the cached `best_prices` pair of each symbol equals
the extremes recomputed from its level maps. -/
def bestConsistent (s : OBState) : Prop :=
  ∀ stock, s.bestPrices stock =
    (maxKey (s.books stock).bids, minKey (s.books stock).asks)

theorem bestConsistent_updateBestPrices (s : OBState) (h : bestConsistent s)
    (stock : String) (t : OBState)
    (hbp : t.bestPrices = s.bestPrices)
    (hbk : ∀ st', st' ≠ stock → t.books st' = s.books st') :
    bestConsistent (updateBestPrices stock t) := by
  intro st'
  show Function.update t.bestPrices stock
      (maxKey (t.books stock).bids, minKey (t.books stock).asks) st' =
    (maxKey (t.books st').bids, minKey (t.books st').asks)
  by_cases hst : st' = stock
  · subst hst
    rw [Function.update_same]
  · rw [Function.update_noteq hst, hbp, hbk st' hst, h st']

theorem bestConsistent_processAddOrder (s : OBState) (h : bestConsistent s)
    (r : Int) (side : String) (sh : Int) (st : String) (p : ℚ) (ts : Int) :
    bestConsistent (processAddOrder r side sh st p ts s) := by
  unfold processAddOrder
  split
  · exact h
  · exact bestConsistent_updateBestPrices s h st _ rfl
      (fun st' hne => Function.update_noteq hne _ _)

theorem bestConsistent_processDeleteOrder (s : OBState) (h : bestConsistent s)
    (r : Int) : bestConsistent (processDeleteOrder r s) := by
  unfold processDeleteOrder
  split
  · exact h
  · rename_i o ho
    exact bestConsistent_updateBestPrices s h o.stock _ rfl
      (fun st' hne => Function.update_noteq hne _ _)

theorem bestConsistent_execCancelCore (s : OBState) (h : bestConsistent s)
    (r q : Int) : bestConsistent (execCancelCore r q s) := by
  unfold execCancelCore
  split
  · exact h
  · rename_i o ho
    split
    · exact h
    · exact bestConsistent_updateBestPrices s h o.stock _ rfl
        (fun st' hne => Function.update_noteq hne _ _)

theorem bestConsistent_processReplaceOrder (s : OBState) (h : bestConsistent s)
    (r nr sh : Int) (p : ℚ) (ts : Int) :
    bestConsistent (processReplaceOrder r nr sh p ts s) := by
  unfold processReplaceOrder
  split
  · exact h
  · rename_i o ho
    exact bestConsistent_updateBestPrices s h o.stock _ rfl
      (fun st' hne => Function.update_noteq hne _ _)

theorem bestConsistent_of_eq {s t : OBState} (h : bestConsistent s)
    (hbp : t.bestPrices = s.bestPrices) (hbk : t.books = s.books) :
    bestConsistent t := by
  intro stock
  rw [hbp, hbk]
  exact h stock

theorem bestConsistent_processMessage (s : OBState) (m : Msg)
    (h : bestConsistent s) : bestConsistent (processMessage s m) := by
  have h0 : bestConsistent { s with counts :=
      { s.counts with total := s.counts.total + 1 } } := bestConsistent_of_eq h rfl rfl
  cases m with
  | addOrder r side sh st p ts =>
    exact bestConsistent_of_eq (bestConsistent_processAddOrder _ h0 r side sh st p ts) rfl rfl
  | deleteOrder r =>
    exact bestConsistent_of_eq (bestConsistent_processDeleteOrder _ h0 r) rfl rfl
  | orderExecuted r q =>
    exact bestConsistent_of_eq (bestConsistent_execCancelCore _ h0 r q) rfl rfl
  | orderCancelled r q =>
    exact bestConsistent_of_eq (bestConsistent_execCancelCore _ h0 r q) rfl rfl
  | replaceOrder r nr sh p ts =>
    exact bestConsistent_of_eq (bestConsistent_processReplaceOrder _ h0 r nr sh p ts) rfl rfl
  | other =>
    exact bestConsistent_of_eq h rfl rfl

theorem bestConsistent_initial : bestConsistent initialState := by
  intro stock
  rfl

theorem bestConsistent_processMessages (s : OBState) (ms : List Msg)
    (h : bestConsistent s) : bestConsistent (processMessages s ms) := by
  induction ms generalizing s with
  | nil => exact h
  | cons m rest ih => exact ih _ (bestConsistent_processMessage _ _ h)

/-! ## Claim C1 — volume conservation -/

/-- **C1, counterexample.**  The conservation invariant claimed for every
message stream fails on the code: starting from an empty book, Add two Buy
orders of 70 and 50 shares at price 10 on stock `"A"`, then Execute 100
shares against the 70-share order.  `_process_order_executed` subtracts the
full 100 from the price level (leaving 20) but removes only the 70-share
order from the registry (leaving 50), so the bid-side level sum (20) no
longer equals the registry share sum (50). -/
theorem c1_volume_conservation_cex :
    ¬ (levelSum (((processMessages initialState [.addOrder 1 "Buy" 70 "A" 10 0,
          .addOrder 2 "Buy" 50 "A" 10 0, .orderExecuted 1 100]).books "A").get .bids) =
        shareSumL (processMessages initialState [.addOrder 1 "Buy" 70 "A" 10 0,
          .addOrder 2 "Buy" 50 "A" 10 0, .orderExecuted 1 100]).orders "A" .bids) := by
  decide

/-- **C1, amended.**  Volume conservation holds at every event boundary for
every message stream in which, at the state where it is processed, each
AddOrder carries positive shares and a fresh reference, each ReplaceOrder
carries positive shares and a fresh new reference, and each
Execute/Cancel quantity does not exceed the referenced order's remaining
shares (`goodRun`): then for every symbol and side the sum of level volumes
in `books[symbol]` equals the sum of `Order.shares` over the registry
orders with that symbol and side. -/
theorem c1_volume_conservation (ms : List Msg)
    (hg : goodRun initialState ms = true) (stock : String) (bs : BookSide) :
    levelSum (((processMessages initialState ms).books stock).get bs) =
      shareSumL (processMessages initialState ms).orders stock bs :=
  (bookInv_processMessages initialState ms bookInv_initial hg).sumEq stock bs

/-- **C1, witness.**  A concrete good run: two adds and a full execution of
the first order; conservation holds on the bid side of `"A"`. -/
theorem c1_volume_conservation_witness :
    goodRun initialState [.addOrder 1 "Buy" 70 "A" 10 0, .addOrder 2 "Buy" 50 "A" 10 0,
        .orderExecuted 1 70] = true ∧
      levelSum (((processMessages initialState [.addOrder 1 "Buy" 70 "A" 10 0,
          .addOrder 2 "Buy" 50 "A" 10 0, .orderExecuted 1 70]).books "A").get .bids) =
        shareSumL (processMessages initialState [.addOrder 1 "Buy" 70 "A" 10 0,
          .addOrder 2 "Buy" 50 "A" 10 0, .orderExecuted 1 70]).orders "A" .bids :=
  ⟨by decide, c1_volume_conservation _ (by decide) "A" .bids⟩

/-! ## Claim C6 — best-price consistency -/

/-- **C6.**  After every message stream processed from a fresh `OrderBook`,
each symbol's cached `best_prices` equal the maximum bid-level price and the
minimum ask-level price recomputed from its books (`none` on an empty side);
and crossed states (best bid ≥ best ask) are representable and not rejected,
witnessed by an Add of a bid at 10 followed by an Add of an ask at 9. -/
theorem c6_best_price_consistency :
    (∀ (ms : List Msg) (stock : String),
      (processMessages initialState ms).bestPrices stock =
        (maxKey ((processMessages initialState ms).books stock).bids,
         minKey ((processMessages initialState ms).books stock).asks)) ∧
    (∃ (ms : List Msg) (stock : String) (b a : ℚ),
      (processMessages initialState ms).bestPrices stock = (some b, some a) ∧ a ≤ b) := by
  constructor
  · intro ms stock
    exact bestConsistent_processMessages initialState ms bestConsistent_initial stock
  · refine ⟨[.addOrder 1 "Buy" 100 "A" 10 0, .addOrder 2 "Sell" 50 "A" 9 0],
      "A", 10, 9, by decide, by norm_num⟩

/-! ## Claim C2 — Execute/Cancel beyond the remaining shares -/

theorem execCancelCore_over_orders (s : OBState) (r q : Int) (o : Order)
    (ho : alistLookup r s.orders = some o) (hq0 : 0 < q) (hover : o.shares < q) :
    (execCancelCore r q s).orders = alistErase r s.orders ∧
    (execCancelCore r q s).books = Function.update s.books o.stock
      ((s.books o.stock).modify (bookSideOf o.side) (subVolume o.price q)) := by
  unfold execCancelCore
  rw [ho]
  show ((if q ≤ 0 then s else _).orders = _) ∧ ((if q ≤ 0 then s else _).books = _)
  rw [if_neg (show ¬ q ≤ 0 by omega)]
  constructor
  · show (if o.shares - q ≤ 0 then alistErase r s.orders
        else alistSet r { o with shares := o.shares - q } s.orders) = _
    rw [if_pos (show o.shares - q ≤ 0 by omega)]
  · rfl

/-- **C2, counterexample.**  Execute 100 against a 70-share order when its
level holds 120 (another order contributes 50): the stated claim predicts
the level drops by the remaining 70 shares (to 50); the code subtracts the
full 100, leaving 20. -/
theorem c2_cap_at_remaining_cex :
    alistLookup (10 : ℚ) (((processMessages initialState [.addOrder 1 "Buy" 70 "A" 10 0,
        .addOrder 2 "Buy" 50 "A" 10 0]).books "A").get .bids) = some 120 ∧
    alistLookup 1 (processMessages initialState [.addOrder 1 "Buy" 70 "A" 10 0,
        .addOrder 2 "Buy" 50 "A" 10 0]).orders = some ⟨1, 10, 70, "Buy", "A", 0⟩ ∧
    alistLookup (10 : ℚ) (((processMessages initialState [.addOrder 1 "Buy" 70 "A" 10 0,
        .addOrder 2 "Buy" 50 "A" 10 0, .orderExecuted 1 100]).books "A").get .bids) =
      some 20 ∧
    some (20 : Int) ≠ some ((120 : Int) - 70) := by
  refine ⟨by decide, by decide, by decide, by decide⟩

/-- **C2, amended.**  For every state and every Execute or Cancel message
whose positive quantity exceeds the referenced order's remaining shares:
the order is removed from the registry; the order's price level is
decremented by the **full message quantity** (not capped at the remaining
shares), and the level is removed exactly when the decremented volume is
`≤ 0`; a surviving value at that level is strictly positive (never retained
at zero or negative volume). -/
theorem c2_exec_cancel_over (s : OBState) (r q : Int) (o : Order) (m : Msg)
    (ho : alistLookup r s.orders = some o) (hq0 : 0 < q) (hover : o.shares < q)
    (hm : m = .orderExecuted r q ∨ m = .orderCancelled r q) :
    alistLookup r (processMessage s m).orders = none ∧
    (∀ v, alistLookup o.price ((s.books o.stock).get (bookSideOf o.side)) = some v →
      alistLookup o.price (((processMessage s m).books o.stock).get (bookSideOf o.side)) =
        (if v - q ≤ 0 then none else some (v - q))) ∧
    (∀ v, alistLookup o.price
        (((processMessage s m).books o.stock).get (bookSideOf o.side)) = some v →
      alistLookup o.price ((s.books o.stock).get (bookSideOf o.side)) = some (v + q) ∧ 0 < v) := by
  have key : ∀ t : OBState, t.orders = s.orders → t.books = s.books →
      (execCancelCore r q t).orders = alistErase r s.orders ∧
      (execCancelCore r q t).books = Function.update s.books o.stock
        ((s.books o.stock).modify (bookSideOf o.side) (subVolume o.price q)) := by
    intro t h1 h2
    have := execCancelCore_over_orders t r q o (h1 ▸ ho) hq0 hover
    rw [h1, h2] at this
    exact this
  have hcore : (processMessage s m).orders = alistErase r s.orders ∧
      (processMessage s m).books = Function.update s.books o.stock
        ((s.books o.stock).modify (bookSideOf o.side) (subVolume o.price q)) := by
    rcases hm with rfl | rfl
    · exact key { s with counts := { s.counts with total := s.counts.total + 1 } } rfl rfl
    · exact key { s with counts := { s.counts with total := s.counts.total + 1 } } rfl rfl
  obtain ⟨hor, hbk⟩ := hcore
  refine ⟨?_, ?_, ?_⟩
  · rw [hor]
    exact alistLookup_erase_self r s.orders
  · intro v hv
    rw [hbk, Function.update_same, Sides.get_modify_same, alistLookup_subVolume_self, hv]
  · intro v hv
    rw [hbk, Function.update_same, Sides.get_modify_same,
      alistLookup_subVolume_self] at hv
    cases hlv : alistLookup o.price ((s.books o.stock).get (bookSideOf o.side)) with
    | none =>
      rw [hlv] at hv
      simp at hv
    | some w =>
      rw [hlv] at hv
      by_cases hw : w - q ≤ 0
      · simp [hw] at hv
      · simp only [hw, if_false, Option.some.injEq] at hv
        subst hv
        constructor
        · congr 1
          omega
        · omega

/-- **C2, witness.**  The amended behaviour at the concrete over-execution:
order 1 (70 shares at 10) executed for 100 while the level holds 120; the
order disappears from the registry and the level drops to 20. -/
theorem c2_exec_cancel_over_witness :
    alistLookup 1 (processMessage (processMessages initialState
        [.addOrder 1 "Buy" 70 "A" 10 0, .addOrder 2 "Buy" 50 "A" 10 0])
      (.orderExecuted 1 100)).orders = none ∧
    alistLookup (10 : ℚ) (((processMessage (processMessages initialState
        [.addOrder 1 "Buy" 70 "A" 10 0, .addOrder 2 "Buy" 50 "A" 10 0])
      (.orderExecuted 1 100)).books "A").get .bids) =
      (if (120 : Int) - 100 ≤ 0 then none else some (120 - 100)) := by
  have h := c2_exec_cancel_over (processMessages initialState
      [.addOrder 1 "Buy" 70 "A" 10 0, .addOrder 2 "Buy" 50 "A" 10 0])
    1 100 ⟨1, 10, 70, "Buy", "A", 0⟩ (.orderExecuted 1 100)
    (by decide) (by decide) (by decide) (Or.inl rfl)
  exact ⟨h.1, h.2.1 120 (by decide)⟩

/-! ## Claim C9 — Add validation -/

/-- **C9, counterexample.**  An AddOrder with negative share quantity
(−5 shares at price 2) is **not** rejected by the truthiness guard: the
order lands in the registry and its (negative) quantity in the book. -/
theorem c9_add_validation_cex :
    alistLookup 1 (processMessage initialState
        (.addOrder 1 "Buy" (-5) "A" 2 0)).orders = some ⟨1, 2, -5, "Buy", "A", 0⟩ ∧
    alistLookup (2 : ℚ) (((processMessage initialState
        (.addOrder 1 "Buy" (-5) "A" 2 0)).books "A").get .bids) = some (-5) := by
  refine ⟨by decide, by decide⟩

/-- **C9, amended.**  An AddOrder whose price is zero or whose share
quantity is zero is rejected, leaving the registry, the books mapping and
the best prices completely unchanged (the same guard also rejects a zero
reference and empty side/stock strings); negative prices and quantities
pass the guard and are not rejected. -/
theorem c9_add_validation (s : OBState) (r : Int) (side : String) (sh : Int)
    (st : String) (p : ℚ) (ts : Int) (h : p = 0 ∨ sh = 0) :
    (processMessage s (.addOrder r side sh st p ts)).orders = s.orders ∧
    (processMessage s (.addOrder r side sh st p ts)).books = s.books ∧
    (processMessage s (.addOrder r side sh st p ts)).bestPrices = s.bestPrices := by
  have hrej : r = 0 ∨ side = "" ∨ sh = 0 ∨ st = "" ∨ p = 0 := by tauto
  show ((processAddOrder r side sh st p ts _).orders = _) ∧
    ((processAddOrder r side sh st p ts _).books = _) ∧
    ((processAddOrder r side sh st p ts _).bestPrices = _)
  unfold processAddOrder
  rw [if_pos hrej]
  exact ⟨rfl, rfl, rfl⟩

/-- **C9, witness.**  A zero-price Add against the empty book is rejected. -/
theorem c9_add_validation_witness :
    ((0 : ℚ) = 0 ∨ (5 : Int) = 0) ∧
    (processMessage initialState (.addOrder 1 "Buy" 5 "A" 0 0)).orders =
      initialState.orders :=
  ⟨Or.inl rfl, (c9_add_validation initialState 1 "Buy" 5 "A" 0 0 (Or.inl rfl)).1⟩

/-! ## Projection characterisations of the handlers, used for C7 and C8 -/

theorem processMessage_add_accepted (s : OBState) (r : Int) (side : String)
    (sh : Int) (st : String) (p : ℚ) (ts : Int)
    (hval : ¬(r = 0 ∨ side = "" ∨ sh = 0 ∨ st = "" ∨ p = 0)) :
    (processMessage s (.addOrder r side sh st p ts)).orders =
      alistSet r ⟨r, p, sh, side, st, ts⟩ s.orders ∧
    (processMessage s (.addOrder r side sh st p ts)).books =
      Function.update s.books st
        ((s.books st).modify (bookSideOf side) (addVolume p sh)) ∧
    (processMessage s (.addOrder r side sh st p ts)).bestPrices =
      Function.update s.bestPrices st
        (maxKey ((Function.update s.books st
            ((s.books st).modify (bookSideOf side) (addVolume p sh))) st).bids,
         minKey ((Function.update s.books st
            ((s.books st).modify (bookSideOf side) (addVolume p sh))) st).asks) := by
  refine ⟨?_, ?_, ?_⟩ <;>
    · first
        | show (processAddOrder r side sh st p ts _).orders = _
        | show (processAddOrder r side sh st p ts _).books = _
        | show (processAddOrder r side sh st p ts _).bestPrices = _
      unfold processAddOrder
      rw [if_neg hval]
      rfl

theorem processMessage_delete_found (s : OBState) (r : Int) (o : Order)
    (ho : alistLookup r s.orders = some o) :
    (processMessage s (.deleteOrder r)).orders = alistErase r s.orders ∧
    (processMessage s (.deleteOrder r)).books = Function.update s.books o.stock
      ((s.books o.stock).modify (bookSideOf o.side) (subVolume o.price o.shares)) ∧
    (processMessage s (.deleteOrder r)).bestPrices =
      Function.update s.bestPrices o.stock
        (maxKey ((Function.update s.books o.stock
            ((s.books o.stock).modify (bookSideOf o.side)
              (subVolume o.price o.shares))) o.stock).bids,
         minKey ((Function.update s.books o.stock
            ((s.books o.stock).modify (bookSideOf o.side)
              (subVolume o.price o.shares))) o.stock).asks) := by
  refine ⟨?_, ?_, ?_⟩ <;>
    · first
        | show (processDeleteOrder r _).orders = _
        | show (processDeleteOrder r _).books = _
        | show (processDeleteOrder r _).bestPrices = _
      unfold processDeleteOrder
      rw [show alistLookup r ({ s with counts :=
        { s.counts with total := s.counts.total + 1 } } : OBState).orders = some o from ho]
      rfl

theorem processMessage_replace_found (s : OBState) (r nr sh : Int) (p : ℚ)
    (ts : Int) (o : Order) (ho : alistLookup r s.orders = some o) :
    (processMessage s (.replaceOrder r nr sh p ts)).orders =
      alistSet nr ⟨nr, p, sh, o.side, o.stock, ts⟩ (alistErase r s.orders) ∧
    (processMessage s (.replaceOrder r nr sh p ts)).books =
      Function.update s.books o.stock
        (((s.books o.stock).modify (bookSideOf o.side)
            (subVolume o.price o.shares)).modify (bookSideOf o.side) (addVolume p sh)) ∧
    (processMessage s (.replaceOrder r nr sh p ts)).bestPrices =
      Function.update s.bestPrices o.stock
        (maxKey ((Function.update s.books o.stock
            (((s.books o.stock).modify (bookSideOf o.side)
                (subVolume o.price o.shares)).modify (bookSideOf o.side)
              (addVolume p sh))) o.stock).bids,
         minKey ((Function.update s.books o.stock
            (((s.books o.stock).modify (bookSideOf o.side)
                (subVolume o.price o.shares)).modify (bookSideOf o.side)
              (addVolume p sh))) o.stock).asks) := by
  refine ⟨?_, ?_, ?_⟩ <;>
    · first
        | show (processReplaceOrder r nr sh p ts _).orders = _
        | show (processReplaceOrder r nr sh p ts _).books = _
        | show (processReplaceOrder r nr sh p ts _).bestPrices = _
      unfold processReplaceOrder
      rw [show alistLookup r ({ s with counts :=
        { s.counts with total := s.counts.total + 1 } } : OBState).orders = some o from ho]
      rfl

/-! ## Claim C8 — Add/Delete round trip -/

theorem alistSet_set {κ ν : Type} [DecidableEq κ] (k : κ) (v w : ν)
    (l : List (κ × ν)) : alistSet k v (alistSet k w l) = alistSet k v l := by
  induction l with
  | nil => simp [alistSet]
  | cons e rest ih =>
    by_cases he : e.1 = k
    · simp [alistSet, he]
    · simp [alistSet, he, ih]

/-- Every level on this side carries strictly positive volume. -/
def levelsPos (ls : Levels) : Bool := ls.all (fun e => decide (0 < e.2))

theorem levelsPos_lookup (ls : Levels) (h : levelsPos ls = true) (p : ℚ) (v : Int)
    (hl : alistLookup p ls = some v) : 0 < v := by
  have hm := alistLookup_mem p v ls hl
  have := List.all_eq_true.mp h (p, v) hm
  simpa using this

/-- Adding `q > 0` at a price and removing the same `q` restores the level
map, provided a pre-existing level at that price was strictly positive. -/
theorem subVolume_addVolume (p : ℚ) (q : Int) (ls : Levels)
    (hpos : ∀ v, alistLookup p ls = some v → 0 < v) :
    subVolume p q (addVolume p q ls) = ls := by
  cases h : alistLookup p ls with
  | none =>
    have hset : addVolume p q ls = ls ++ [(p, 0 + q)] := by
      unfold addVolume
      rw [h]
      exact alistSet_fresh _ _ _ h
    have hlook : alistLookup p (addVolume p q ls) = some (0 + q) := by
      rw [alistLookup_addVolume_self, h]
      rfl
    unfold subVolume
    rw [hlook]
    show (if (0 + q) - q ≤ 0 then alistErase p (addVolume p q ls) else _) = ls
    rw [if_pos (by omega), hset, alistErase_append_single _ _ _ h]
  | some v =>
    have hv := hpos v h
    have hlook : alistLookup p (addVolume p q ls) = some (v + q) := by
      rw [alistLookup_addVolume_self, h]
      rfl
    unfold subVolume
    rw [hlook]
    show (if (v + q) - q ≤ 0 then _ else alistSet p ((v + q) - q) (addVolume p q ls)) = ls
    rw [if_neg (by omega)]
    unfold addVolume
    rw [h]
    rw [show ((some v).getD 0 + q) = v + q from rfl, alistSet_set,
      show v + q - q = v by ring, alistSet_lookup_self _ _ _ h]

theorem Sides.modify_modify (bs : BookSide) (f g : Levels → Levels) (S : Sides) :
    (S.modify bs g).modify bs f = S.modify bs (fun ls => f (g ls)) := by
  cases bs <;> rfl

theorem Sides.modify_eq_self (bs : BookSide) (f : Levels → Levels) (S : Sides)
    (h : f (S.get bs) = S.get bs) : S.modify bs f = S := by
  cases bs <;> simp only [Sides.modify, Sides.get] at h ⊢ <;> rw [h]

/-- **C8, counterexample.**  The round trip does not always restore the book:
a reachable state can hold a zero-volume price level (Add +5 then Add −5 at
price 7 leave the level present at volume 0, and best bid 7).  Adding a
valid fresh order of 10 shares at 7 and deleting it then erases the level
(0 + 10 − 10 ≤ 0), so the level and the best bid are not restored. -/
theorem c8_add_delete_roundtrip_cex :
    alistLookup 3 (processMessages initialState [.addOrder 1 "Buy" 5 "A" 7 0,
        .addOrder 2 "Buy" (-5) "A" 7 0]).orders = none ∧
    (processMessages initialState [.addOrder 1 "Buy" 5 "A" 7 0,
        .addOrder 2 "Buy" (-5) "A" 7 0]).bestPrices "A" = (some 7, none) ∧
    (processMessages initialState [.addOrder 1 "Buy" 5 "A" 7 0,
        .addOrder 2 "Buy" (-5) "A" 7 0, .addOrder 3 "Buy" 10 "A" 7 0,
        .deleteOrder 3]).bestPrices "A" = (none, none) ∧
    ((processMessages initialState [.addOrder 1 "Buy" 5 "A" 7 0,
        .addOrder 2 "Buy" (-5) "A" 7 0, .addOrder 3 "Buy" 10 "A" 7 0,
        .deleteOrder 3]).books "A").get .bids ≠
      ((processMessages initialState [.addOrder 1 "Buy" 5 "A" 7 0,
        .addOrder 2 "Buy" (-5) "A" 7 0]).books "A").get .bids := by
  refine ⟨by decide, by decide, by decide, by decide⟩

/-- **C8, amended.**  Add-then-Delete of a fresh reference with truthy fields
and positive shares restores the symbol's books (both sides), its best
prices, and the registry — provided every pre-existing level on the touched
side has strictly positive volume (true of any state reached without
negative-quantity Adds) and the cached best prices of the symbol are
consistent with its books (an invariant of all reachable states, claim C6). -/
theorem c8_add_delete_roundtrip (s : OBState) (r : Int) (side : String)
    (sh : Int) (stock : String) (p : ℚ) (ts : Int)
    (hfresh : alistLookup r s.orders = none)
    (hr : r ≠ 0) (hside : side ≠ "") (hstock : stock ≠ "") (hsh : 0 < sh)
    (hp : p ≠ 0)
    (hpos : levelsPos ((s.books stock).get (bookSideOf side)) = true)
    (hbest : s.bestPrices stock =
      (maxKey (s.books stock).bids, minKey (s.books stock).asks)) :
    (processMessage (processMessage s (.addOrder r side sh stock p ts))
        (.deleteOrder r)).books stock = s.books stock ∧
    (processMessage (processMessage s (.addOrder r side sh stock p ts))
        (.deleteOrder r)).bestPrices stock = s.bestPrices stock ∧
    (processMessage (processMessage s (.addOrder r side sh stock p ts))
        (.deleteOrder r)).orders = s.orders := by
  have hval : ¬(r = 0 ∨ side = "" ∨ sh = 0 ∨ stock = "" ∨ p = 0) := by
    push_neg
    exact ⟨hr, hside, by omega, hstock, hp⟩
  obtain ⟨h1or, h1bk, h1bp⟩ := processMessage_add_accepted s r side sh stock p ts hval
  set s1 := processMessage s (.addOrder r side sh stock p ts) with hs1
  have hlook : alistLookup r s1.orders = some ⟨r, p, sh, side, stock, ts⟩ := by
    rw [h1or]
    exact alistLookup_set_self ..
  obtain ⟨h2or, h2bk, h2bp⟩ := processMessage_delete_found s1 r _ hlook
  dsimp only at h2bk h2bp
  have hbooks : (processMessage s1 (.deleteOrder r)).books stock = s.books stock := by
    rw [h2bk, Function.update_same, h1bk, Function.update_same, Sides.modify_modify]
    apply Sides.modify_eq_self
    exact subVolume_addVolume p sh _ (fun v hv => levelsPos_lookup _ hpos p v hv)
  have hb2 : (Function.update s1.books stock
      ((s1.books stock).modify (bookSideOf side) (subVolume p sh))) stock =
      s.books stock := by
    rw [← h2bk]
    exact hbooks
  refine ⟨hbooks, ?_, ?_⟩
  · rw [h2bp, Function.update_same, hb2, hbest]
  · rw [h2or, h1or, alistSet_fresh _ _ _ hfresh, alistErase_append_single _ _ _ hfresh]

/-- **C8, witness.**  The round trip at a concrete reachable state: one
resting 5-share bid at price 7 on `"A"`; Add a fresh 10-share bid at 7 then
Delete it; the book, best prices and registry of `"A"` are restored. -/
theorem c8_add_delete_roundtrip_witness :
    (processMessage (processMessage (processMessages initialState
        [.addOrder 1 "Buy" 5 "A" 7 0]) (.addOrder 3 "Buy" 10 "A" 7 0))
      (.deleteOrder 3)).books "A" =
        (processMessages initialState [.addOrder 1 "Buy" 5 "A" 7 0]).books "A" ∧
    (processMessage (processMessage (processMessages initialState
        [.addOrder 1 "Buy" 5 "A" 7 0]) (.addOrder 3 "Buy" 10 "A" 7 0))
      (.deleteOrder 3)).orders =
        (processMessages initialState [.addOrder 1 "Buy" 5 "A" 7 0]).orders := by
  have h := c8_add_delete_roundtrip (processMessages initialState
      [.addOrder 1 "Buy" 5 "A" 7 0]) 3 "Buy" 10 "A" 7 0
    (by decide) (by decide) (by decide) (by decide) (by decide) (by decide)
    (by decide) (by decide)
  exact ⟨h.1, h.2.2⟩

/-! ## Claim C7 — Replace is delete-then-add -/

/-- **C7, counterexample.**  The equivalence fails when the replacement
price is zero: `_process_replace_order` validates nothing, so
Replace(1→2, qty 10, price 0) books the new order at price 0, while in the
decomposition Delete(1) ; Add(2, Buy, 10, "A", 0) the Add is rejected by the
truthiness guard and the registry ends up without order 2. -/
theorem c7_replace_delete_add_cex :
    alistLookup 1 (processMessages initialState
        [.addOrder 1 "Buy" 10 "A" 5 0]).orders = some ⟨1, 5, 10, "Buy", "A", 0⟩ ∧
    alistLookup 2 (processMessage (processMessages initialState
        [.addOrder 1 "Buy" 10 "A" 5 0]) (.replaceOrder 1 2 10 0 1)).orders =
      some ⟨2, 0, 10, "Buy", "A", 1⟩ ∧
    alistLookup 2 (processMessages (processMessages initialState
        [.addOrder 1 "Buy" 10 "A" 5 0])
      [.deleteOrder 1, .addOrder 2 "Buy" 10 "A" 0 1]).orders = none := by
  refine ⟨by decide, by decide, by decide⟩

/-- **C7, amended.**  For every state whose registry binds the old reference
to an order with nonempty side and stock strings (true of every registered
order in a reachable state), and every Replace whose new reference, new
quantity and new price are all nonzero (truthy, so the Add of the
decomposition is not rejected): applying the Replace produces the same
registry, the same books mapping and the same best-price mapping as applying
Delete(old) followed by Add(new reference, old side, old symbol, new price,
new quantity); the message statistics counters are not compared. -/
theorem c7_replace_is_delete_add (s : OBState) (r nr sh : Int) (p : ℚ)
    (ts : Int) (o : Order) (ho : alistLookup r s.orders = some o)
    (hside : o.side ≠ "") (hstock : o.stock ≠ "")
    (hnr : nr ≠ 0) (hsh : sh ≠ 0) (hp : p ≠ 0) :
    (processMessage s (.replaceOrder r nr sh p ts)).orders =
      (processMessage (processMessage s (.deleteOrder r))
        (.addOrder nr o.side sh o.stock p ts)).orders ∧
    (processMessage s (.replaceOrder r nr sh p ts)).books =
      (processMessage (processMessage s (.deleteOrder r))
        (.addOrder nr o.side sh o.stock p ts)).books ∧
    (processMessage s (.replaceOrder r nr sh p ts)).bestPrices =
      (processMessage (processMessage s (.deleteOrder r))
        (.addOrder nr o.side sh o.stock p ts)).bestPrices := by
  have hval : ¬(nr = 0 ∨ o.side = "" ∨ sh = 0 ∨ o.stock = "" ∨ p = 0) := by
    push_neg
    exact ⟨hnr, hside, hsh, hstock, hp⟩
  obtain ⟨hRor, hRbk, hRbp⟩ := processMessage_replace_found s r nr sh p ts o ho
  obtain ⟨hDor, hDbk, hDbp⟩ := processMessage_delete_found s r o ho
  set sd := processMessage s (.deleteOrder r) with hsd
  obtain ⟨hAor, hAbk, hAbp⟩ :=
    processMessage_add_accepted sd nr o.side sh o.stock p ts hval
  refine ⟨?_, ?_, ?_⟩
  · rw [hRor, hAor, hDor]
  · rw [hRbk, hAbk, hDbk]
    simp only [Function.update_same, Function.update_idem]
  · rw [hRbp, hAbp, hDbp, hDbk]
    simp only [Function.update_same, Function.update_idem]

/-- **C7, witness.**  The equivalence at a concrete state: one resting order
(10 shares at 5 on `"A"`), replaced by reference 2 for 20 shares at price 6;
the registries after Replace and after Delete-then-Add coincide. -/
theorem c7_replace_is_delete_add_witness :
    (processMessage (processMessages initialState [.addOrder 1 "Buy" 10 "A" 5 0])
        (.replaceOrder 1 2 20 6 1)).orders =
      (processMessage (processMessage (processMessages initialState
          [.addOrder 1 "Buy" 10 "A" 5 0]) (.deleteOrder 1))
        (.addOrder 2 "Buy" 20 "A" 6 1)).orders := by
  have h := c7_replace_is_delete_add (processMessages initialState
      [.addOrder 1 "Buy" 10 "A" 5 0]) 1 2 20 6 1 ⟨1, 5, 10, "Buy", "A", 0⟩
    (by decide) (by decide) (by decide) (by decide) (by decide) (by decide)
  exact h.1

/-! # Trading engine (`trading_engine.py`)

The embedded parts: `place_order`, `cancel_order`, `execute_order`,
`liquidity_reversion_strategy`, `process_market_update` and
`calculate_performance_metrics`.  The strategy parameters are the defaults
fixed in `__init__` (lines 68-78) and never changed:
`liquidity_threshold = 1.5`, `reverse_threshold = 0.67`,
`position_size = 100`, `min_volume = 500`, `hold_time_ticks = 30`,
`profit_target_pct = 0.05`, `stop_loss_pct = 0.03`,
`order_timeout_ticks = 5`, `max_positions = 10`. -/

/-- A strategy-side order dict as created by `place_order` (lines 499-509).
The wall-clock `timestamp` and the always-empty `executions` list are
omitted. -/
structure EOrder where
  id : Int
  symbol : String
  side : String
  quantity : Int
  price : ℚ
  status : String
  filled : Int
deriving Repr, DecidableEq

/-- A `self.positions` entry (lines 613-618). -/
structure Position where
  quantity : Int
  avgPrice : ℚ
  realizedPnl : ℚ
deriving Repr, DecidableEq

/-- A trade record (lines 601-610); `tradeId` is the `n` of `"trade_n"`;
the wall-clock timestamp is omitted. -/
structure Trade where
  tradeId : Int
  orderId : Int
  symbol : String
  side : String
  quantity : Int
  price : ℚ
  pnl : ℚ
deriving Repr, DecidableEq

/-- Per-symbol strategy state (lines 257-263). -/
structure StrategyState where
  position : Int
  entryPrice : Option ℚ
  entryTime : Option Int
  holdTicks : Int
  lastOrderId : Option Int
deriving Repr, DecidableEq

/-- The default strategy-state dict inserted for an unseen symbol. -/
def freshStrategy : StrategyState :=
  { position := 0, entryPrice := none, entryTime := none,
    holdTicks := 0, lastOrderId := none }

/-- A market data update as produced by `process_messages_async`
(order_book_simulator/main.py lines 279-292): a Python **dict** with these
keys (the derived `spread`/`spread_pct` entries are never read on the
modelled paths and are omitted).  The engine stores these dicts unchanged
in `self.market_data` (trading_engine.py line 194). -/
structure MarketUpdate where
  symbol : String
  timestamp : Int
  bidPrice : ℚ
  askPrice : ℚ
  midPrice : ℚ
  bidVolume : Int
  askVolume : Int
  imbalance : ℚ
deriving Repr, DecidableEq

/-- The metrics fields the claims touch (`self.metrics`, lines 86-95);
wall-clock fields and the derived statistics (`win_rate`, `avg_profit`,
`avg_loss`, `profit_factor`, with its infinity) are omitted. -/
structure Metrics where
  totalPnl : ℚ
  realizedPnl : ℚ
  unrealizedPnl : ℚ
  numTrades : Int
  winningTrades : Int
  losingTrades : Int
deriving Repr, DecidableEq

/-- The `TradingEngine` state (`__init__`, lines 54-98).  The asyncio queues
are external I/O and omitted.  Note that `self.order_age`, read by
`cancel_order` (line 551), `execute_order` (line 594) and
`process_market_data` (line 162), is never initialised anywhere in the
class; those reads raise `AttributeError` when reached. -/
structure EngineState where
  cash : ℚ
  positions : List (String × Position)
  trades : List Trade
  orders : List (Int × EOrder)
  nextOrderId : Int
  nextTradeId : Int
  marketData : List (String × MarketUpdate)
  priceHistory : List (String × List MarketUpdate)
  activeStrategies : List (String × StrategyState)
  ordersByAge : List (Int × List Int)
  metrics : Metrics
deriving Repr, DecidableEq

/-- A fresh `TradingEngine(initial_capital)`. -/
def initialEngine (initialCapital : ℚ) : EngineState :=
  { cash := initialCapital, positions := [], trades := [], orders := [],
    nextOrderId := 1, nextTradeId := 1, marketData := [], priceHistory := [],
    activeStrategies := [], ordersByAge := [],
    metrics := { totalPnl := 0, realizedPnl := 0, unrealizedPnl := 0,
                 numTrades := 0, winningTrades := 0, losingTrades := 0 } }

/-- `self.orders_by_age[0].add(order_id)` (line 515): defaultdict of sets. -/
def bucketAdd (age : Int) (oid : Int) (buckets : List (Int × List Int)) :
    List (Int × List Int) :=
  match alistLookup age buckets with
  | none => alistSet age [oid] buckets
  | some ids => alistSet age (if oid ∈ ids then ids else ids ++ [oid]) buckets

/-- `place_order` (lines 482-526): allocate the next order id, create the
order dict with status `"active"` and `filled = 0`, store it, add it to age
bucket 0, hand it to the (external) order queue, and return the id. -/
def placeOrder (s : EngineState) (symbol side : String) (quantity : Int)
    (price : ℚ) : Int × EngineState :=
  let oid := s.nextOrderId
  let o : EOrder :=
    { id := oid, symbol := symbol, side := side, quantity := quantity,
      price := price, status := "active", filled := 0 }
  (oid, { s with nextOrderId := oid + 1,
                 orders := alistSet oid o s.orders,
                 ordersByAge := bucketAdd 0 oid s.ordersByAge })

/-- `cancel_order` (lines 528-564).  An unknown id, or a status outside
`["new", "partially_filled"]`, returns `False` without touching anything —
in particular the status `"active"` that `place_order` assigns is never
cancellable.  When the status check does pass, the code first sets the
status to `"canceled"` and then evaluates `order_id in self.order_age`
(line 551); `order_age` is never initialised, so the read raises
`AttributeError`, surfaced here as `Except.error`. -/
def cancelOrder (s : EngineState) (oid : Int) :
    Except String (Bool × EngineState) :=
  match alistLookup oid s.orders with
  | none => .ok (false, s)
  | some o =>
    if o.status = "new" ∨ o.status = "partially_filled" then
      .error "AttributeError: TradingEngine object has no attribute order_age"
    else .ok (false, s)

/-- `execute_order` (lines 566-687).  An unknown id, or a status other than
`"new"`, returns `False` without touching anything — in particular every
order placed by `place_order` (status `"active"`) is refused.  When the
status is `"new"`, the code sets it to `"filled"` and then reads the
never-initialised `self.order_age` (line 594), raising `AttributeError`
before any trade, position, cash or metrics code is reached. -/
def executeOrder (s : EngineState) (oid : Int) :
    Except String (Bool × EngineState) :=
  match alistLookup oid s.orders with
  | none => .ok (false, s)
  | some o =>
    if o.status ≠ "new" then .ok (false, s)
    else .error "AttributeError: TradingEngine object has no attribute order_age"

/-- `len([p for p in self.positions.values() if p['quantity'] != 0])`. -/
def countOpenPositions (positions : List (String × Position)) : Int :=
  ((positions.filter (fun e => decide (e.2.quantity ≠ 0))).length : Int)

/-- `liquidity_reversion_strategy` (lines 212-361), clause by clause with
the default parameters.  The float parameter literals are written as exact
rationals via `Rat.divInt`: `1.5 = Rat.divInt 3 2`,
`0.67 = Rat.divInt 67 100`, `0.05 = Rat.divInt 1 20`,
`0.03 = Rat.divInt 3 100`, and `bid_volume / ask_volume` is the exact
integer ratio `Rat.divInt u.bidVolume u.askVolume`
(`Rat.divInt_eq_div` equates it with `(bid : ℚ) / ask`).  The trailing
`self.age_and_cancel_old_orders()` (line 361) invokes the coroutine without
`await`, so its body never runs: it is a no-op here. -/
def liquidityReversionStrategy (s : EngineState) (u : MarketUpdate) :
    EngineState :=
  let symbol := u.symbol
  if symbol = "" ∨ u.bidVolume + u.askVolume < 500 then s
  else if 10 ≤ countOpenPositions s.positions then s
  else
    let liquidityRatio : ℚ :=
      if 0 < u.bidVolume ∧ 0 < u.askVolume then
        Rat.divInt u.bidVolume u.askVolume
      else if u.imbalance ≠ 0 then
        let bidFraction := (u.imbalance + 1) / 2
        let askFraction := 1 - bidFraction
        if 0 < askFraction then bidFraction / askFraction else 1
      else 1
    let st := (alistLookup symbol s.activeStrategies).getD freshStrategy
    if st.position = 0 then
      if Rat.divInt 3 2 ≤ liquidityRatio then
        let r := placeOrder s symbol "sell" 100 u.bidPrice
        let st' := if r.1 ≠ 0 then
            { st with lastOrderId := some r.1, position := -100,
                      entryPrice := some u.bidPrice,
                      entryTime := some u.timestamp, holdTicks := 0 }
          else st
        { r.2 with activeStrategies := alistSet symbol st' r.2.activeStrategies }
      else if liquidityRatio ≤ Rat.divInt 67 100 then
        let r := placeOrder s symbol "buy" 100 u.askPrice
        let st' := if r.1 ≠ 0 then
            { st with lastOrderId := some r.1, position := 100,
                      entryPrice := some u.askPrice,
                      entryTime := some u.timestamp, holdTicks := 0 }
          else st
        { r.2 with activeStrategies := alistSet symbol st' r.2.activeStrategies }
      else
        { s with activeStrategies := alistSet symbol st s.activeStrategies }
    else
      let st1 := { st with holdTicks := st.holdTicks + 1 }
      let positionSize := |st1.position|
      let isLong := 0 < st1.position
      let currentPrice := if isLong then u.askPrice else u.bidPrice
      let pct0 : ℚ :=
        match st1.entryPrice with
        | some ep => if ep = 0 then 0 else (currentPrice - ep) / ep
        | none => 0
      let pct := if isLong then pct0 else -pct0
      let profitHit := Rat.divInt 1 20 ≤ pct
      let stopHit := pct ≤ -(Rat.divInt 3 100)
      let maxHold := 30 ≤ st1.holdTicks
      let normalized := Rat.divInt 67 100 < liquidityRatio ∧ liquidityRatio < Rat.divInt 3 2
      if profitHit ∨ stopHit ∨ maxHold ∨ normalized then
        let exitSide := if isLong then "sell" else "buy"
        let exitPrice := if isLong then u.bidPrice else u.askPrice
        let r := placeOrder s symbol exitSide positionSize exitPrice
        let st' := if r.1 ≠ 0 then
            { st1 with position := 0, entryPrice := none, entryTime := none,
                       holdTicks := 0, lastOrderId := some r.1 }
          else st1
        { r.2 with activeStrategies := alistSet symbol st' r.2.activeStrategies }
      else
        { s with activeStrategies := alistSet symbol st1 s.activeStrategies }

/-- `process_market_update` (lines 184-210): cache the update under its
symbol, append it to the symbol's price history (first update starts a
fresh list; the list is trimmed to its last 100 entries), and run the
strategy only when the stored history holds at least 10 updates. -/
def processMarketUpdate (s : EngineState) (u : MarketUpdate) : EngineState :=
  let symbol := u.symbol
  let s := { s with marketData := alistSet symbol u s.marketData }
  let hist :=
    match alistLookup symbol s.priceHistory with
    | none => [u]
    | some h =>
      let h := h ++ [u]
      if 100 < h.length then h.drop (h.length - 100) else h
  let s := { s with priceHistory := alistSet symbol hist s.priceHistory }
  if hist.length < 10 then s else liquidityReversionStrategy s u

/-- Several updates in sequence. -/
def processMarketUpdates (s : EngineState) (us : List MarketUpdate) :
    EngineState :=
  us.foldl processMarketUpdate s

/-- `calculate_performance_metrics` (lines 736-786), on the claim-relevant
fields.  The unrealized loop (lines 744-748) considers only positions with
`quantity > 0`; for the first such position whose symbol has market data it
evaluates `self.market_data[symbol].mid_price` — attribute access on the
stored update **dict** (stored verbatim from the queue at line 194, built
as a dict by the producer, main.py lines 279-292), which raises
`AttributeError`; the same value is read correctly as `['mid_price']` in
`save_performance_summary` (lines 804 and 823).  The raise is surfaced as
`Except.error`.  When no open long position has market data the loop
contributes 0 and the metrics update completes. -/
def calculatePerformanceMetrics (s : EngineState) :
    Except String EngineState :=
  if s.positions.any (fun e =>
      decide (0 < e.2.quantity) && (alistLookup e.1 s.marketData).isSome) then
    .error "AttributeError: dict object has no attribute mid_price"
  else
    .ok { s with metrics := { s.metrics with
      unrealizedPnl := 0,
      totalPnl := s.metrics.realizedPnl + 0 } }

/-! ## Claim C3 — strategy-placed orders can never be executed -/

/-- **C3.**  `place_order` stores the new order with status `"active"`, and
a subsequent `execute_order` call with that order's id returns `False` and
leaves the engine state — the order's status, `positions`, `cash` and
`trades` included — completely unchanged, because `execute_order` proceeds
only when the status equals `"new"`; consequently no simulated fill ever
results from an order the strategy places. -/
theorem c3_placed_orders_never_execute (s : EngineState) (symbol side : String)
    (quantity : Int) (price : ℚ) :
    ((alistLookup (placeOrder s symbol side quantity price).1
        (placeOrder s symbol side quantity price).2.orders).map EOrder.status =
      some "active") ∧
    executeOrder (placeOrder s symbol side quantity price).2
        (placeOrder s symbol side quantity price).1 =
      .ok (false, (placeOrder s symbol side quantity price).2) := by
  have hlook : alistLookup (placeOrder s symbol side quantity price).1
      (placeOrder s symbol side quantity price).2.orders =
      some ⟨s.nextOrderId, symbol, side, quantity, price, "active", 0⟩ := by
    show alistLookup s.nextOrderId
        (alistSet s.nextOrderId ⟨s.nextOrderId, symbol, side, quantity, price,
          "active", 0⟩ s.orders) = _
    exact alistLookup_set_self ..
  constructor
  · rw [hlook]
    rfl
  · unfold executeOrder
    rw [hlook]
    rfl

/-! ## Claim C4 — imbalance entry -/

/-- **C4, counterexample.**  There is no consecutive-ticks requirement in
the code: after 9 low-volume updates build the symbol's price history, a
**single** qualifying update (bid/ask volume 600/200, ratio 3 ≥ 1.5)
immediately places the short for 100 shares at the best bid and sets the
strategy position to −100 — on the 1st update of its streak, where the
claim (min_consecutive_ticks = 5) says no order may be placed yet. -/
theorem c4_imbalance_entry_cex :
    (processMarketUpdates (initialEngine 1000000)
        ((List.range 9).map (fun i =>
            (⟨"AAA", (i : Int), 10, 11, 10, 0, 0, 0⟩ : MarketUpdate)) ++
          [⟨"AAA", 10, 10, 11, 10, 600, 200, 0⟩])).orders =
      [(1, ⟨1, "AAA", "sell", 100, 10, "active", 0⟩)] ∧
    (Option.map StrategyState.position (alistLookup "AAA"
        (processMarketUpdates (initialEngine 1000000)
          ((List.range 9).map (fun i =>
              (⟨"AAA", (i : Int), 10, 11, 10, 0, 0, 0⟩ : MarketUpdate)) ++
            [⟨"AAA", 10, 10, 11, 10, 600, 200, 0⟩])).activeStrategies)) =
      some (-100) := by
  refine ⟨by decide, by decide⟩

/-- **C4, amended.**  Entry requires no streak: with zero strategy position
in a symbol, the strategy places a short at the best bid for
`position_size = 100` shares on the **first** processed update whose
bid-volume / ask-volume ratio is ≥ `liquidity_threshold = 1.5` — provided
the update's symbol is nonempty, its total volume is at least
`min_volume = 500`, both volumes are positive, fewer than
`max_positions = 10` positions are open, at least 9 earlier updates of
price history exist for the symbol (so the 10-update history gate passes),
and the next order id is nonzero (always true: ids start at 1 and grow).
There is no `min_consecutive_ticks` parameter and no streak counter. -/
theorem c4_imbalance_entry (s : EngineState) (u : MarketUpdate)
    (hsym : u.symbol ≠ "")
    (hvol : 500 ≤ u.bidVolume + u.askVolume)
    (hopen : countOpenPositions s.positions < 10)
    (hbid : 0 < u.bidVolume) (hask : 0 < u.askVolume)
    (hratio : Rat.divInt 3 2 ≤ Rat.divInt u.bidVolume u.askVolume)
    (hflat : ((alistLookup u.symbol s.activeStrategies).getD freshStrategy).position = 0)
    (hsome : (alistLookup u.symbol s.priceHistory).isSome = true)
    (hlen : 9 ≤ ((alistLookup u.symbol s.priceHistory).getD []).length)
    (hoid : s.nextOrderId ≠ 0) :
    alistLookup s.nextOrderId (processMarketUpdate s u).orders =
      some ⟨s.nextOrderId, u.symbol, "sell", 100, u.bidPrice, "active", 0⟩ ∧
    (Option.map StrategyState.position
        (alistLookup u.symbol (processMarketUpdate s u).activeStrategies)) =
      some (-100) := by
  obtain ⟨h, hh⟩ := Option.isSome_iff_exists.mp hsome
  rw [hh] at hlen
  simp only [Option.getD_some] at hlen
  have hgate : ¬ (if 100 < (h ++ [u]).length then
      (h ++ [u]).drop ((h ++ [u]).length - 100) else h ++ [u]).length < 10 := by
    by_cases hc : 100 < (h ++ [u]).length
    · rw [if_pos hc, List.length_drop]
      omega
    · rw [if_neg hc, List.length_append]
      simp only [List.length_singleton]
      omega
  have h1 : ¬(u.symbol = "" ∨ u.bidVolume + u.askVolume < 500) := by
    push_neg
    exact ⟨hsym, by omega⟩
  have h2 : ¬(10 ≤ countOpenPositions s.positions) := by omega
  have h3 : 0 < u.bidVolume ∧ 0 < u.askVolume := ⟨hbid, hask⟩
  simp only [processMarketUpdate, hh, hgate, if_false, liquidityReversionStrategy,
    h1, h2, h3, and_self, if_true, placeOrder, hflat, hratio, hoid, ne_eq,
    not_false_eq_true, alistLookup_set_self, Option.map_some]
  exact ⟨trivial, rfl⟩

/-- **C4, witness.**  The amended entry behaviour at a concrete state: the
engine after 9 low-volume updates for `"AAA"`, hit by a 600/200 update. -/
theorem c4_imbalance_entry_witness :
    alistLookup (processMarketUpdates (initialEngine 1000000)
        ((List.range 9).map (fun i =>
          (⟨"AAA", (i : Int), 10, 11, 10, 0, 0, 0⟩ : MarketUpdate)))).nextOrderId
      (processMarketUpdate (processMarketUpdates (initialEngine 1000000)
          ((List.range 9).map (fun i =>
            (⟨"AAA", (i : Int), 10, 11, 10, 0, 0, 0⟩ : MarketUpdate))))
        ⟨"AAA", 10, 10, 11, 10, 600, 200, 0⟩).orders =
      some ⟨(processMarketUpdates (initialEngine 1000000)
        ((List.range 9).map (fun i =>
          (⟨"AAA", (i : Int), 10, 11, 10, 0, 0, 0⟩ : MarketUpdate)))).nextOrderId,
        "AAA", "sell", 100, 10, "active", 0⟩ := by
  have hw := c4_imbalance_entry (processMarketUpdates (initialEngine 1000000)
      ((List.range 9).map (fun i =>
        (⟨"AAA", (i : Int), 10, 11, 10, 0, 0, 0⟩ : MarketUpdate))))
    ⟨"AAA", 10, 10, 11, 10, 600, 200, 0⟩
    (by decide) (by decide) (by decide) (by decide) (by decide) (by decide)
    (by decide) (by decide) (by decide) (by decide)
  exact hw.1

/-! ## Claim C5 — timeout cancellation -/

/-- The S5 scenario: 9 low-volume updates build history, the 10th places
the strategy's short (order 1), and `order_timeout_ticks + 1 = 6` further
updates for the symbol follow with no fill condition triggering. -/
def timeoutScenario : List MarketUpdate :=
  (List.range 9).map (fun i => ⟨"AAA", (i : Int), 10, 11, 10, 0, 0, 0⟩) ++
    [⟨"AAA", 10, 10, 11, 10, 600, 200, 0⟩] ++
    (List.range 6).map (fun i => ⟨"AAA", (11 + i : Int), 10, 11, 10, 0, 0, 0⟩)

/-- **C5** (code bug).  After the order has aged through
`order_timeout_ticks + 1` processed updates for its symbol it is still
`"active"` — never `"Canceled"` — and `cancel_order` on it returns `False`
and changes nothing.  Three independent slips defeat the documented
timeout: `cancel_order` (line 543) only cancels statuses
`"new"`/`"partially_filled"` while `place_order` (line 505) assigns
`"active"`; the aging sweep `age_and_cancel_old_orders` is invoked without
`await` (line 361), so that coroutine never runs; and the fallback aging
loop in `process_market_data` (lines 162-166) reads the never-initialised
attribute `self.order_age`, raising `AttributeError`. -/
theorem c5_timeout_cancel_never :
    (Option.map EOrder.status (alistLookup 1
        (processMarketUpdates (initialEngine 1000000) timeoutScenario).orders) =
      some "active") ∧
    cancelOrder (processMarketUpdates (initialEngine 1000000) timeoutScenario) 1 =
      .ok (false, processMarketUpdates (initialEngine 1000000) timeoutScenario) := by
  refine ⟨by decide, ?_⟩
  rfl

/-! ## Claim C10 — P&L identity and marking -/

/-- **C10** (code bug).  With one open long position (100 shares of AAPL at
average price 10) and cached market data for AAPL (mid 12), calculating the
performance metrics never produces the claimed
`total_pnl = realized + unrealized` marking: the loop's read
`self.market_data[symbol].mid_price` is attribute access on the stored
update dict and raises `AttributeError` (the spec's intended value here
would be `(12 − 10) × 100 = 200`). -/
theorem c10_pnl_marking_attribute_error :
    calculatePerformanceMetrics
      { initialEngine 1000000 with
          positions := [("AAPL", ⟨100, 10, 0⟩)],
          marketData := [("AAPL", ⟨"AAPL", 0, 12, 12, 12, 500, 400, 0⟩)] } =
      .error "AttributeError: dict object has no attribute mid_price" := by
  rfl

end NasdaqSim
